import Mathlib

/-
Verification development for the SBVH (Spatial Split Bounding Volume Hierarchy)
core of TLVulkanRenderer, embedded shallowly from
src/TLVulkanRenderer/src/geometry/SBVH.cpp.

Numeric model: the C++ code computes with 32-bit floats; this embedding uses
exact rationals.  Collaborator code that is not part of the given sources
(BBox.cpp, the Geometry/Triangle classes, SBVH.h) is modelled from the
specification; every such definition carries a doc comment saying so.
-/

set_option autoImplicit false

namespace SBVH

/-- Axis enumeration mirroring the C++ EAxis (X = 0, Y = 1, Z = 2). -/
inductive EAxis where
  | X
  | Y
  | Z
deriving DecidableEq, Repr

/-- Modelled from the spec: a 3-component vector (glm vec3) over exact rationals. -/
structure Vec3 where
  x : ℚ
  y : ℚ
  z : ℚ
deriving DecidableEq, Repr

instance : Inhabited Vec3 := ⟨⟨0, 0, 0⟩⟩

/-- Component access, `v[dim]` in the C++ code. -/
def Vec3.get (v : Vec3) : EAxis → ℚ
  | .X => v.x
  | .Y => v.y
  | .Z => v.z

/-- Component update, `v[dim] = q` in the C++ code. -/
def Vec3.set (v : Vec3) : EAxis → ℚ → Vec3
  | .X, q => { v with x := q }
  | .Y, q => { v with y := q }
  | .Z, q => { v with z := q }

/-- Componentwise subtraction, used for `a - b` on glm vectors. -/
def Vec3.vsub (a b : Vec3) : Vec3 := ⟨a.x - b.x, a.y - b.y, a.z - b.z⟩

/-- Modelled from the spec: glm `dot`. -/
def dotQ (a b : Vec3) : ℚ := a.x * b.x + a.y * b.y + a.z * b.z

/-- Componentwise minimum. -/
def Vec3.cmin (a b : Vec3) : Vec3 := ⟨min a.x b.x, min a.y b.y, min a.z b.z⟩

/-- Componentwise maximum. -/
def Vec3.cmax (a b : Vec3) : Vec3 := ⟨max a.x b.x, max a.y b.y, max a.z b.z⟩

/-- Modelled from the spec: a nonempty axis-aligned bounding box with min/max
corners.  The C++ BBox stores `m_min`, `m_max` and a cached `m_centroid`;
here the centroid is computed. -/
structure BBoxNE where
  bmin : Vec3
  bmax : Vec3
deriving DecidableEq, Repr

instance : Inhabited BBoxNE := ⟨⟨default, default⟩⟩

/-- Modelled from the spec: a BBox value.  The C++ default BBox is the
union-neutral empty box (min = +inf, max = -inf); it is modelled as `none`. -/
abbrev BBox := Option BBoxNE

/-- `m_centroid`: the midpoint of the two corners. -/
def BBoxNE.centroid (b : BBoxNE) : Vec3 :=
  ⟨(b.bmin.x + b.bmax.x) / 2, (b.bmin.y + b.bmax.y) / 2, (b.bmin.z + b.bmax.z) / 2⟩

/-- Modelled from the spec: `BBox::BBoxUnion` on two boxes; the empty box is a
neutral element. -/
def BBox.union : BBox → BBox → BBox
  | none, b => b
  | some a, none => some a
  | some a, some b => some ⟨a.bmin.cmin b.bmin, a.bmax.cmax b.bmax⟩

/-- Modelled from the spec: `BBox::BBoxUnion` of a box and a point. -/
def BBox.unionPoint : BBox → Vec3 → BBox
  | none, p => some ⟨p, p⟩
  | some a, p => some ⟨a.bmin.cmin p, a.bmax.cmax p⟩

/-- Modelled from the spec: `BBox::GetSurfaceArea`, `2(dx dy + dy dz + dz dx)`.
The empty box is given area 0 here (the float code would produce a non-finite
value on its inverted infinite corners; no claim instance below touches that
case). -/
def BBox.surfaceArea : BBox → ℚ
  | none => 0
  | some b =>
    let d := b.bmax.vsub b.bmin
    2 * (d.x * d.y + d.y * d.z + d.z * d.x)

/-- Modelled from the spec: `BBox::BBoxMaximumExtent`, the axis on which the
box is longest.  On the empty box the float code compares the inverted
infinite diagonal, whose comparisons all fail, falling through to Z. -/
def BBox.maxExtentAxis : BBox → EAxis
  | none => .Z
  | some b =>
    let d := b.bmax.vsub b.bmin
    if d.x > d.y ∧ d.x > d.z then .X
    else if d.y > d.z then .Y
    else .Z

/-- Modelled from the spec: the `dim` component of `BBox::Offset`, the
normalized position of a point within the box on one axis.  Rational division
by zero yields 0 (the callers in SBVH.cpp only use it on an axis of positive
extent). -/
def BBox.offsetOn : BBox → Vec3 → EAxis → ℚ
  | none, _, _ => 0
  | some b, p, dim => (p.get dim - b.bmin.get dim) / (b.bmax.get dim - b.bmin.get dim)

/-- Modelled from the spec: `BBox::BBoxOverlap`, the intersection box; empty
when the boxes are disjoint. -/
def BBox.overlap : BBox → BBox → BBox
  | some a, some b =>
    let lo := a.bmin.cmax b.bmin
    let hi := a.bmax.cmin b.bmax
    if lo.x ≤ hi.x ∧ lo.y ≤ hi.y ∧ lo.z ≤ hi.z then some ⟨lo, hi⟩ else none
  | _, _ => none

/-- The all-centroids-equal test of SBVH.cpp line 87,
`bboxCentroids.m_max[dim] == bboxCentroids.m_min[dim]`.  On the empty box the
float code compares -inf with +inf, which is false, hence `none ↦ false`. -/
def BBox.degenerateOn : BBox → EAxis → Bool
  | none, _ => false
  | some b, dim => decide (b.bmax.get dim = b.bmin.get dim)

/-- Modelled from the spec: `BBox::BBoxFromPoints` over a nonempty point list
(the only call site passes the two edge-plane intersection points). -/
def bboxFromPoints : List Vec3 → BBoxNE
  | [] => ⟨default, default⟩
  | p :: ps => ps.foldl (fun b q => ⟨b.bmin.cmin q, b.bmax.cmax q⟩) ⟨p, p⟩

/-- Modelled from the spec: a ray (origin and direction). -/
structure Ray where
  origin : Vec3
  dir : Vec3

/-- Modelled from the spec: an intersection record.  `t` is the distance along
the ray (nonpositive means no hit, matching the checks `isx.t > 0` in
SBVH.cpp); `hitId` abstracts the rest of the hit payload (normal, material,
surface parameters).  The default record is the "no hit" value. -/
structure Isect where
  t : ℚ := -1
  hitId : ℕ := 0
deriving DecidableEq, Repr

instance : Inhabited Isect := ⟨{}⟩

/-- Modelled from the spec: the shape payload of a primitive.  Only triangles
expose vertices for clipping; every other geometry is opaque. -/
inductive GeomShape where
  | tri (v0 v1 v2 : Vec3)
  | other

/-- Modelled from the spec: a polymorphic primitive exposing a bounding box
(`GetBBox`) and a ray-intersection test (`GetIntersection`). -/
structure Geometry where
  shape : GeomShape
  gbox : BBoxNE
  isect : Ray → Isect

instance : Inhabited Geometry := ⟨⟨.other, default, fun _ => {}⟩⟩

/-- `SBVHGeometryInfo` from SBVH.h: geometry id, bounding box and the
transient straddling flag (aggregate-initialized to false at build start). -/
structure SBVHGeometryInfo where
  geometryId : ℕ
  bbox : BBoxNE
  straddling : Bool := false
deriving DecidableEq, Repr

instance : Inhabited SBVHGeometryInfo := ⟨⟨0, default, false⟩⟩

/-- `BucketInfo` from SBVH.cpp lines 102-108. -/
structure BucketInfo where
  count : ℕ := 0
  bbox : BBox := none
  refsEnter : ℕ := 0
  refsExit : ℕ := 0
deriving DecidableEq, Repr

/-- A float value in the cost computation: either a finite rational or the
`INFINITY` the code initializes its running minima with. -/
inductive FCost where
  | inf
  | val (q : ℚ)
deriving DecidableEq, Repr

/-- Float comparison `q < c` of a finite value against a possibly-infinite one. -/
def FCost.qlt (q : ℚ) : FCost → Bool
  | .inf => true
  | .val r => decide (q < r)

/-- Float comparison `c < c'` (INFINITY is never less than anything). -/
def FCost.lt : FCost → FCost → Bool
  | .inf, _ => false
  | .val _, .inf => true
  | .val q, .val r => decide (q < r)

/-- The split-strategy configuration value (`m_splitMethod`). -/
inductive SplitMethod where
  | SAH
  | SpatialSplit_SAH
  | EqualCounts
deriving DecidableEq, Repr

/-! ### List-range helpers

`listSub l first last` is the contiguous working range `[first, last)` that
the C++ code addresses with pointer arithmetic into `geomInfos`;
`listSetSub` writes a transformed range back in place. -/

/-- The subrange `[first, last)` of a list. -/
def listSub {α : Type} (l : List α) (first last : ℕ) : List α :=
  (l.drop first).take (last - first)

/-- Replace the subrange `[first, last)` of a list. -/
def listSetSub {α : Type} (l : List α) (first last : ℕ) (m : List α) : List α :=
  l.take first ++ m ++ l.drop last

/-- Insert an element into a list sorted by the strict comparator `lt`,
after every element that compares strictly below it. -/
def insertByLt {α : Type} (lt : α → α → Bool) (a : α) : List α → List α
  | [] => [a]
  | b :: bs => if lt b a then b :: insertByLt lt a bs else a :: b :: bs

/-- Deterministic model of the partial sort performed by `std::nth_element`
in `PartitionEqualCounts`: a full insertion sort of the range by the
`CompareCentroid` comparator (a sorted range is one of the orderings
`nth_element` is allowed to produce). -/
def insSort {α : Type} (lt : α → α → Bool) : List α → List α
  | [] => []
  | a :: as => insertByLt lt a (insSort lt as)

/-- One read step of the classic `std::remove_if` loop: elements failing the
predicate are copied down to the write position `w`; removed elements are
skipped, leaving the tail positions of the array untouched. -/
def removeIfStep {α : Type} (p : α → Bool) (st : List α × ℕ) (a : α) : List α × ℕ :=
  if p a then st else (st.1.set st.2 a, st.2 + 1)

/-- Model of `std::remove_if` on a trivially copyable array: the kept elements
are compacted to the front, the positions at and after the returned new end
keep their prior contents.  The returned new end itself is what SBVH.cpp
line 376 discards. -/
def removeIfModel {α : Type} (p : α → Bool) (xs : List α) : List α :=
  (xs.foldl (removeIfStep p) (xs, 0)).1

/-- The straddling-removal pass of SBVH.cpp lines 374-380:
`std::remove_if(&geomInfos[first], &geomInfos[last], straddling)` with the
return value discarded. -/
def removeIfSub (l : List SBVHGeometryInfo) (first last : ℕ) : List SBVHGeometryInfo :=
  listSetSub l first last (removeIfModel (fun gi => gi.straddling) (listSub l first last))

/-! ### Buckets and split costs (SBVH.cpp lines 101-372 and 440-480) -/

/-- `NUM_BUCKET` (SBVH.cpp line 113). -/
def NUM_BUCKET : ℕ := 12

/-- `COST_TRAVERSAL` (SBVH.cpp line 110), 0.125. -/
def COST_TRAVERSAL : ℚ := 1 / 8

/-- `COST_INTERSECTION` (SBVH.cpp line 111). -/
def COST_INTERSECTION : ℚ := 1

/-- `RESTRICT_ALPHA` (SBVH.cpp line 133), 0.2. -/
def RESTRICT_ALPHA : ℚ := 1 / 5

/-- Truncation of a nonnegative float to int, as in
`int whichBucket = NUM_BUCKET * offset`. -/
def qTrunc (q : ℚ) : ℕ := (Int.floor q).toNat

/-- Bucket index of a centroid:
`whichBucket = NUM_BUCKET * bboxCentroids.Offset(centroid)[dim]`, set to
`NUM_BUCKET - 1` when it equals `NUM_BUCKET`. -/
def whichBucketOf (cb : BBox) (dim : EAxis) (c : Vec3) : ℕ :=
  let w := qTrunc ((NUM_BUCKET : ℚ) * cb.offsetOn c dim)
  if w = NUM_BUCKET then NUM_BUCKET - 1 else w

/-- Add one geometry record to its centroid bucket (count and box union),
SBVH.cpp lines 137-145 / 441-448. -/
def addToBuckets (cb : BBox) (dim : EAxis) (bs : List BucketInfo)
    (gi : SBVHGeometryInfo) : List BucketInfo :=
  let w := whichBucketOf cb dim gi.bbox.centroid
  match bs.get? w with
  | some b => bs.set w { b with count := b.count + 1, bbox := b.bbox.union (some gi.bbox) }
  | none => bs

/-- The 12 object-split buckets accumulated over a working range. -/
def objectBuckets (cb : BBox) (dim : EAxis) (range : List SBVHGeometryInfo) :
    List BucketInfo :=
  range.foldl (addToBuckets cb dim) (List.replicate NUM_BUCKET {})

/-- Total count of the buckets on or before split candidate `i`
(`count0` accumulation, SBVH.cpp lines 311-315). -/
def countUpTo (bs : List BucketInfo) (i : ℕ) : ℕ :=
  ((bs.take (i + 1)).map (fun b => b.count)).sum

/-- Union box of the buckets on or before split candidate `i`. -/
def unionUpTo (bs : List BucketInfo) (i : ℕ) : BBox :=
  (bs.take (i + 1)).foldl (fun b bi => b.union bi.bbox) none

/-- Total count of the buckets strictly after split candidate `i`
(`count1` accumulation, SBVH.cpp lines 317-322). -/
def countFrom (bs : List BucketInfo) (i : ℕ) : ℕ :=
  ((bs.drop (i + 1)).map (fun b => b.count)).sum

/-- Union box of the buckets strictly after split candidate `i`. -/
def unionFrom (bs : List BucketInfo) (i : ℕ) : BBox :=
  (bs.drop (i + 1)).foldl (fun b bi => b.union bi.bbox) none

/-- `invAllGeometriesSA = 1.0f / bboxAllGeoms.GetSurfaceArea()`
(SBVH.cpp line 118). -/
def invSAOf (allBox : BBox) : ℚ := 1 / allBox.surfaceArea

/-- The object-split SAH cost at candidate boundary `i` (SBVH.cpp line 324 and
line 468): `COST_TRAVERSAL + COST_INTERSECTION * (count0*SA0 + count1*SA1) *
invAllGeometriesSA`. -/
def objectCostAt (objB : List BucketInfo) (allBox : BBox) (i : ℕ) : ℚ :=
  COST_TRAVERSAL + COST_INTERSECTION *
    ((countUpTo objB i : ℚ) * (unionUpTo objB i).surfaceArea +
     (countFrom objB i : ℚ) * (unionFrom objB i).surfaceArea) * invSAOf allBox

/-- The spatial-split restriction test at boundary `i` (SBVH.cpp lines
327-331): the object children's overlap surface area, relative to the total,
exceeds `RESTRICT_ALPHA`. -/
def restrictAt (objB : List BucketInfo) (allBox : BBox) (i : ℕ) : Bool :=
  decide (((unionUpTo objB i).overlap (unionFrom objB i)).surfaceArea * invSAOf allBox
    > RESTRICT_ALPHA)

/-- The spatial-split cost the code evaluates at boundary `i` (SBVH.cpp lines
331-354), or `none` when the restriction is not met and no evaluation happens.
`bbox0`/`bbox1` are reset to the spatial buckets but `count0`/`count1` keep
the already-accumulated object-bucket counts and the spatial counts are added
on top of them. -/
def spatialCostAt (objB spatB : List BucketInfo) (allBox : BBox) (i : ℕ) : Option ℚ :=
  if restrictAt objB allBox i then
    some (COST_TRAVERSAL + COST_INTERSECTION *
      (((countUpTo objB i + countUpTo spatB i : ℕ) : ℚ) * (unionUpTo spatB i).surfaceArea +
       ((countFrom objB i + countFrom spatB i : ℕ) : ℚ) * (unionFrom spatB i).surfaceArea) *
      invSAOf allBox)
  else none

/-- The spatial-split cost as the specification describes it: counts and box
unions taken from the spatial buckets only.  This definition follows the
spec's words and is compared against `spatialCostAt`, which follows the code. -/
def specSpatialCostAt (spatB : List BucketInfo) (allBox : BBox) (i : ℕ) : ℚ :=
  COST_TRAVERSAL + COST_INTERSECTION *
    ((countUpTo spatB i : ℚ) * (unionUpTo spatB i).surfaceArea +
     (countFrom spatB i : ℚ) * (unionFrom spatB i).surfaceArea) * invSAOf allBox

/-- The candidate-selection state of SBVH.cpp lines 300-304: the tracked
minimum, its bucket, whether it is the spatial candidate, and the (possibly
stale) last spatial cost, all initialized as in the code. -/
structure SplitSel where
  minSplitCost : FCost := .inf
  minSplitCostBucket : ℕ := 0
  isSpatialSplit : Bool := false
  spatialSplitCost : FCost := .inf
deriving DecidableEq, Repr

/-- One iteration of the candidate-selection loop (SBVH.cpp lines 305-372):
compute the object cost, update the spatial cost only when the restriction is
met (otherwise the previous, stale value is compared), then track the global
minimum, the object candidate being adopted only when strictly cheaper than
the spatial one. -/
def chooseStep (objB spatB : List BucketInfo) (allBox : BBox)
    (s : SplitSel) (i : ℕ) : SplitSel :=
  let objC := objectCostAt objB allBox i
  let spatC : FCost :=
    match spatialCostAt objB spatB allBox i with
    | some c => .val c
    | none => s.spatialSplitCost
  if FCost.qlt objC spatC then
    if FCost.qlt objC s.minSplitCost then
      { minSplitCost := .val objC, minSplitCostBucket := i,
        isSpatialSplit := false, spatialSplitCost := spatC }
    else { s with spatialSplitCost := spatC }
  else
    if FCost.lt spatC s.minSplitCost then
      { minSplitCost := spatC, minSplitCostBucket := i,
        isSpatialSplit := true, spatialSplitCost := spatC }
    else { s with spatialSplitCost := spatC }

/-- The full candidate-selection loop over the `NUM_BUCKET - 1` internal
boundaries. -/
def chooseSplit (objB spatB : List BucketInfo) (allBox : BBox) : SplitSel :=
  (List.range (NUM_BUCKET - 1)).foldl (chooseStep objB spatB allBox) {}

/-- The SAH minimum-cost search of SBVH.cpp lines 450-480: costs for every
boundary, then a scan starting from `costs[0]`. -/
def sahMinFold (objB : List BucketInfo) (allBox : BBox) : ℚ × ℕ :=
  (List.range' 1 (NUM_BUCKET - 2)).foldl
    (fun mc i => if objectCostAt objB allBox i < mc.1 then (objectCostAt objB allBox i, i) else mc)
    (objectCostAt objB allBox 0, 0)

/-- `PartitionEqualCounts` (SBVH.cpp lines 37-43): midpoint index plus the
partially sorted range, modelled as a full sort by centroid on the split
axis. -/
def partitionEqualCounts (dim : EAxis) (first last : ℕ)
    (gis : List SBVHGeometryInfo) : ℕ × List SBVHGeometryInfo :=
  ((first + last) / 2,
   listSetSub gis first last
     (insSort (fun a b => decide (a.bbox.centroid.get dim < b.bbox.centroid.get dim))
       (listSub gis first last)))

/-- `std::partition` of the working range by bucket index at most the winning
bucket (SBVH.cpp lines 388-413 and 486-497), modelled as a stable partition;
returns `mid = pmid - &geomInfos[0]` and the rearranged array. -/
def bucketPartition (cb : BBox) (dim : EAxis) (winner : ℕ) (first last : ℕ)
    (gis : List SBVHGeometryInfo) : ℕ × List SBVHGeometryInfo :=
  let pr := listSub gis first last
  let keep := fun gi => whichBucketOf cb dim gi.bbox.centroid ≤ winner
  let tr := pr.filter (fun gi => decide (keep gi))
  let fl := pr.filter (fun gi => !decide (keep gi))
  (first + tr.length, listSetSub gis first last (tr ++ fl))

/-! ### The spatial-split bucketing pass (SBVH.cpp lines 147-297) -/

/-- The two in-plane axes `splittinPlaneAxis` chosen per split dimension
(SBVH.cpp lines 192-211). -/
def splitAxes : EAxis → EAxis × EAxis
  | .X => (.Y, .Z)
  | .Y => (.X, .Z)
  | .Z => (.X, .Y)

/-- The splitting-plane normal chosen per split dimension. -/
def planeNormal : EAxis → Vec3
  | .X => ⟨1, 0, 0⟩
  | .Y => ⟨0, 1, 0⟩
  | .Z => ⟨0, 0, 1⟩

/-- One edge-plane intersection point by similar triangles (SBVH.cpp lines
243-256); glm vectors are modelled as zero-initialized before their
components are written. -/
def isxPointOf (dim : EAxis) (axes : EAxis × EAxis) (plane pointAbove pointBelow : Vec3) :
    Vec3 :=
  let v1 := (default : Vec3).set dim (plane.get dim)
  let v2 := v1.set axes.1
    (((pointBelow.get axes.1 - pointAbove.get axes.1) /
      (pointBelow.get dim - pointAbove.get dim)) *
      (plane.get dim - pointAbove.get dim) + pointAbove.get axes.1)
  v2.set axes.2
    (((pointBelow.get axes.2 - pointAbove.get axes.2) /
      (pointBelow.get dim - pointAbove.get dim)) *
      (plane.get dim - pointAbove.get dim) + pointAbove.get axes.2)

/-- Grow a box by a point (`BBox::BBoxUnion(box, vert)` on a nonempty box). -/
def BBoxNE.expand (b : BBoxNE) (p : Vec3) : BBoxNE := ⟨b.bmin.cmin p, b.bmax.cmax p⟩

/-- The clipped tight fragment of a straddling triangle inside one bucket
(SBVH.cpp lines 166-279): the plane point, the below-plane tests, the
two-below case analysis (the source covers only the two-vertices-below cases;
the fall-through leaves the zero-initialized vectors), the two intersection
points, their bounding box, and the union with any vertex lying strictly
inside the bucket's slab.  The fragment entry carries the original geometry
id and a default (false) straddling flag. -/
def clipFragment (allB : BBoxNE) (dim : EAxis) (bucketSize : ℚ) (gid : ℕ)
    (v0 v1 v2 : Vec3) (bucket : ℕ) : SBVHGeometryInfo :=
  let plane := allB.bmin.set dim (bucketSize * ((bucket : ℚ) + 1) + allB.bmin.get dim)
  let n := planeNormal dim
  let below0 := decide (dotQ (v0.vsub plane) n < 0)
  let below1 := decide (dotQ (v1.vsub plane) n < 0)
  let below2 := decide (dotQ (v2.vsub plane) n < 0)
  let pts :=
    if below0 && below1 then (v2, v0, v1)
    else if below0 && below2 then (v1, v0, v2)
    else if below1 && below2 then (v0, v1, v2)
    else ((default : Vec3), (default : Vec3), (default : Vec3))
  let axes := splitAxes dim
  let i0 := isxPointOf dim axes plane pts.1 pts.2.1
  let i1 := isxPointOf dim axes plane pts.1 pts.2.2
  let box0 := bboxFromPoints [i0, i1]
  let box1 := if v0.get dim > plane.get dim - bucketSize ∧ v0.get dim < plane.get dim
    then box0.expand v0 else box0
  let box2 := if v1.get dim > plane.get dim - bucketSize ∧ v1.get dim < plane.get dim
    then box1.expand v1 else box1
  let box3 := if v2.get dim > plane.get dim - bucketSize ∧ v2.get dim < plane.get dim
    then box2.expand v2 else box2
  { geometryId := gid, bbox := box3, straddling := false }

/-- The box stored in object bucket `w` (`buckets[whichBucket].bbox`). -/
def objBoxAt (objB : List BucketInfo) (w : ℕ) : BBox :=
  match objB.get? w with
  | some b => b.bbox
  | none => none

/-- The non-straddling update of a spatial bucket (SBVH.cpp lines 176-182 and
288-295): the count is incremented and the bucket box is assigned the union
of the corresponding object bucket's box with the geometry's box (the source
reads `buckets[whichBucket].bbox`, not the spatial bucket's own box). -/
def spatNonStraddleAdd (objB spatB : List BucketInfo) (w : ℕ) (gibox : BBoxNE) :
    List BucketInfo :=
  match spatB.get? w with
  | some b => spatB.set w
      { b with count := b.count + 1, bbox := (objBoxAt objB w).union (some gibox) }
  | none => spatB

/-- Union a clipped fragment box into a spatial bucket (SBVH.cpp line 281). -/
def spatFragBoxAdd (spatB : List BucketInfo) (bucket : ℕ) (fbox : BBoxNE) :
    List BucketInfo :=
  match spatB.get? bucket with
  | some b => spatB.set bucket { b with bbox := BBox.union (some fbox) b.bbox }
  | none => spatB

/-- Increment the entering-reference count (SBVH.cpp line 285). -/
def bumpEnter (spatB : List BucketInfo) (w : ℕ) : List BucketInfo :=
  match spatB.get? w with
  | some b => spatB.set w { b with refsEnter := b.refsEnter + 1 }
  | none => spatB

/-- Increment the exiting-reference count (SBVH.cpp line 286). -/
def bumpExit (spatB : List BucketInfo) (w : ℕ) : List BucketInfo :=
  match spatB.get? w with
  | some b => spatB.set w { b with refsExit := b.refsExit + 1 }
  | none => spatB

/-- State of the spatial bucketing pass: the growing `geomInfos` array and
the 12 spatial buckets. -/
structure SpatialPass where
  gis : List SBVHGeometryInfo
  spatB : List BucketInfo

/-- One iteration of the spatial bucketing loop (SBVH.cpp lines 152-297) for
the entry at index `i`: compute the entered and exited edge buckets; a
straddling entry is flagged and, when it is a triangle, clipped into one
fragment per crossed boundary (appended at the end of the array) with the
entering and exiting reference counts bumped; a non-triangle takes the
fallback on the first inner iteration (resetting its flag) and breaks; a
non-straddling entry goes to its centroid bucket. -/
def spatialPassStep (geoms : List Geometry) (cb : BBox) (objB : List BucketInfo)
    (allB : BBoxNE) (dim : EAxis) (bucketSize : ℚ) (st : SpatialPass) (i : ℕ) :
    SpatialPass :=
  let gi := st.gis.getD i default
  let sEdge := whichBucketOf (some allB) dim gi.bbox.bmin
  let eEdge := whichBucketOf (some allB) dim gi.bbox.bmax
  if sEdge ≠ eEdge then
    let gis1 := st.gis.set i { gi with straddling := true }
    match (geoms.getD gi.geometryId default).shape with
    | .other =>
      if sEdge < eEdge then
        let w := whichBucketOf cb dim gi.bbox.centroid
        { gis := gis1.set i { gi with straddling := false },
          spatB := spatNonStraddleAdd objB st.spatB w gi.bbox }
      else { gis := gis1, spatB := st.spatB }
    | .tri v0 v1 v2 =>
      let afterFrags := (List.range' sEdge (eEdge - sEdge)).foldl
        (fun (acc : SpatialPass) bucket =>
          let frag := clipFragment allB dim bucketSize gi.geometryId v0 v1 v2 bucket
          { gis := acc.gis ++ [frag], spatB := spatFragBoxAdd acc.spatB bucket frag.bbox })
        { gis := gis1, spatB := st.spatB }
      { afterFrags with spatB := bumpExit (bumpEnter afterFrags.spatB sEdge) eEdge }
  else
    let w := whichBucketOf cb dim gi.bbox.centroid
    { gis := st.gis, spatB := spatNonStraddleAdd objB st.spatB w gi.bbox }

/-- The whole spatial bucketing pass over the working range `[first, last)`.
The loop bound is fixed before the pass, so appended fragments (which land
beyond `last`) are not themselves visited. -/
def spatialPass (geoms : List Geometry) (cb : BBox) (objB : List BucketInfo)
    (allB : BBoxNE) (dim : EAxis) (first last : ℕ) (gis : List SBVHGeometryInfo) :
    SpatialPass :=
  let bucketSize := (allB.bmax.get dim - allB.bmin.get dim) / (NUM_BUCKET : ℚ)
  (List.range' first (last - first)).foldl
    (spatialPassStep geoms cb objB allB dim bucketSize)
    { gis := gis, spatB := List.replicate NUM_BUCKET {} }

/-! ### Nodes and the recursive builder (SBVH.cpp lines 15-99, 121-532) -/

/-- `SBVHNode*`: a null pointer, a leaf (`SBVHLeaf`) with its build index,
offset and count into the ordered-primitives array and box, or an interior
node with two children, build index, split axis and box. -/
inductive SBVHNode where
  | null
  | leaf (nodeIdx firstGeomOffset numGeoms : ℕ) (box : BBox)
  | interior (nearChild farChild : SBVHNode) (nodeIdx : ℕ) (splitAxis : EAxis) (box : BBox)
deriving DecidableEq, Repr

/-- The box stored on a node (`m_bbox`); null contributes the empty box. -/
def SBVHNode.box : SBVHNode → BBox
  | .null => none
  | .leaf _ _ _ b => b
  | .interior _ _ _ _ b => b

/-- Modelled from the spec: the `SBVHNode` constructor computes the interior
box as the union of its children's boxes. -/
def mkInterior (near far : SBVHNode) (idx : ℕ) (axis : EAxis) : SBVHNode :=
  .interior near far idx axis (near.box.union far.box)

/-- The state threaded through `BuildRecursive`: the mutable `geomInfos`
array, the shared node counter and the output `orderedGeoms` list. -/
structure BuildState where
  geomInfos : List SBVHGeometryInfo
  nodeCount : ℕ
  orderedGeoms : List Geometry

/-- `bboxAllGeoms`: union of the boxes of the working range (SBVH.cpp lines
60-63). -/
def rangeAllBox (gis : List SBVHGeometryInfo) (first last : ℕ) : BBox :=
  (listSub gis first last).foldl (fun b gi => b.union (some gi.bbox)) none

/-- `bboxCentroids`: union of the centroids of the working range (SBVH.cpp
lines 81-84). -/
def rangeCentroidBox (gis : List SBVHGeometryInfo) (first last : ℕ) : BBox :=
  (listSub gis first last).foldl (fun b gi => b.unionPoint gi.bbox.centroid) none

/-- Leaf creation (SBVH.cpp lines 67-78, 88-99, 418-428, 500-511): record the
current ordered-list length as the first geometry offset, append the range's
primitives (looked up by geometry id in the original list), and bump the
node counter. -/
def makeLeaf (geoms : List Geometry) (gis : List SBVHGeometryInfo) (nodeCount : ℕ)
    (ordered : List Geometry) (first last : ℕ) (bbAll : BBox) :
    SBVHNode × BuildState :=
  (.leaf nodeCount ordered.length (last - first) bbAll,
   { geomInfos := gis, nodeCount := nodeCount + 1,
     orderedGeoms := ordered ++
       (listSub gis first last).map (fun gi => geoms.getD gi.geometryId default) })

/-- The per-strategy switch of SBVH.cpp lines 121-520: either an early leaf
return (`inl`) or the split index `mid` together with the rearranged
`geomInfos` (`inr`). -/
def buildBranch (geoms : List Geometry) (sm : SplitMethod) (maxG : ℕ)
    (st : BuildState) (first last : ℕ) (bboxAllGeoms bboxCentroids : BBox)
    (dim : EAxis) : (SBVHNode × BuildState) ⊕ (ℕ × List SBVHGeometryInfo) :=
  let numPrimitives := last - first
  match sm with
  | .SpatialSplit_SAH =>
    if numPrimitives ≤ 4 then .inr (partitionEqualCounts dim first last st.geomInfos)
    else
      let objB := objectBuckets bboxCentroids dim (listSub st.geomInfos first last)
      let allNE := bboxAllGeoms.getD default
      let ps := spatialPass geoms bboxCentroids objB allNE dim first last st.geomInfos
      let sel := chooseSplit objB ps.spatB bboxAllGeoms
      let gis2 := if sel.isSpatialSplit then removeIfSub ps.gis first last else ps.gis
      if numPrimitives > maxG ∨
          FCost.lt sel.minSplitCost (.val ((numPrimitives : ℚ) * COST_INTERSECTION)) = true then
        .inr (bucketPartition bboxCentroids dim sel.minSplitCostBucket first last gis2)
      else
        .inl (makeLeaf geoms gis2 st.nodeCount st.orderedGeoms first last bboxAllGeoms)
  | .SAH =>
    if numPrimitives ≤ 4 then .inr (partitionEqualCounts dim first last st.geomInfos)
    else
      let objB := objectBuckets bboxCentroids dim (listSub st.geomInfos first last)
      let mc := sahMinFold objB bboxAllGeoms
      if numPrimitives > maxG ∨ mc.1 < (numPrimitives : ℚ) then
        .inr (bucketPartition bboxCentroids dim mc.2 first last st.geomInfos)
      else
        .inl (makeLeaf geoms st.geomInfos st.nodeCount st.orderedGeoms first last bboxAllGeoms)
  | .EqualCounts => .inr (partitionEqualCounts dim first last st.geomInfos)

/-- `SBVH::BuildRecursive` (SBVH.cpp lines 45-532).  `fuel` bounds the
recursion depth; `none` marks a computation that has not returned within
`fuel` calls (the C++ recursion has no other termination device).  The C++
guard `last < first || last < 0 || first < 0` reduces to `last < first` over
natural-number indices and yields a null node.  A one-primitive range and a
degenerate centroid box produce a leaf; otherwise the strategy switch either
returns a leaf early or yields `mid`, after which both children are built
and an interior node takes the next counter value. -/
def buildRecursive (geoms : List Geometry) (sm : SplitMethod) (maxG : ℕ) :
    ℕ → BuildState → ℕ → ℕ → Option (SBVHNode × BuildState)
  | 0, _, _, _ => none
  | fuel + 1, st, first, last =>
    if last < first then some (.null, st)
    else
      let bboxAllGeoms := rangeAllBox st.geomInfos first last
      if last - first = 1 then
        some (makeLeaf geoms st.geomInfos st.nodeCount st.orderedGeoms first last bboxAllGeoms)
      else
        let bboxCentroids := rangeCentroidBox st.geomInfos first last
        let dim := bboxCentroids.maxExtentAxis
        if bboxCentroids.degenerateOn dim then
          some (makeLeaf geoms st.geomInfos st.nodeCount st.orderedGeoms first last bboxAllGeoms)
        else
          match buildBranch geoms sm maxG st first last bboxAllGeoms bboxCentroids dim with
          | .inl res => some res
          | .inr mg =>
            match buildRecursive geoms sm maxG fuel { st with geomInfos := mg.2 } first mg.1 with
            | none => none
            | some (nearChild, st2) =>
              match buildRecursive geoms sm maxG fuel st2 mg.1 last with
              | none => none
              | some (farChild, st3) =>
                some (mkInterior nearChild farChild st3.nodeCount dim,
                      { st3 with nodeCount := st3.nodeCount + 1 })

/-- The two recursive child builds plus interior-node creation (SBVH.cpp
lines 522-531), as a named function of the chosen `mid` and rearranged
array, for use in theorem statements. -/
def interiorStep (geoms : List Geometry) (sm : SplitMethod) (maxG : ℕ) (fuel : ℕ)
    (st : BuildState) (first mid last : ℕ) (dim : EAxis)
    (gis2 : List SBVHGeometryInfo) : Option (SBVHNode × BuildState) :=
  match buildRecursive geoms sm maxG fuel { st with geomInfos := gis2 } first mid with
  | none => none
  | some (nearChild, st2) =>
    match buildRecursive geoms sm maxG fuel st2 mid last with
    | none => none
    | some (farChild, st3) =>
      some (mkInterior nearChild farChild st3.nodeCount dim,
            { st3 with nodeCount := st3.nodeCount + 1 })

/-- The geometry-info records created at build start (SBVH.cpp lines 22-27). -/
def initGeomInfos (geoms : List Geometry) : List SBVHGeometryInfo :=
  (List.range geoms.length).map (fun i => { geometryId := i, bbox := (geoms.getD i default).gbox })

/-- The initial build state of `SBVH::Build`. -/
def initState (geoms : List Geometry) : BuildState :=
  { geomInfos := initGeomInfos geoms, nodeCount := 0, orderedGeoms := [] }

/-- `SBVH::Build` (SBVH.cpp lines 15-35) up to the flattening step: build the
root over the whole index range; the ordered list in the final state is what
`m_geoms.swap(orderedGeoms)` installs. -/
def build (geoms : List Geometry) (sm : SplitMethod) (maxG : ℕ) (fuel : ℕ) :
    Option (SBVHNode × BuildState) :=
  buildRecursive geoms sm maxG fuel (initState geoms) 0 geoms.length

/-! ### Traversal (SBVH.cpp lines 535-597) -/

/-- The nearest-hit update of SBVH.cpp lines 545-550: accept an intersection
only when its distance is positive and strictly below the running nearest. -/
def accUpd (r : Ray) (acc : FCost × Isect) (g : Geometry) : FCost × Isect :=
  let isx := g.isect r
  if 0 < isx.t ∧ FCost.qlt isx.t acc.1 = true then (.val isx.t, isx) else acc

/-- The leaf loop: test the `cnt` primitives at offsets `off, off+1, ...` of
the ordered list. -/
def leafFold (geoms : List Geometry) (r : Ray) (off cnt : ℕ) (acc : FCost × Isect) :
    FCost × Isect :=
  (List.range cnt).foldl (fun a i => accUpd r a (geoms.getD (off + i) default)) acc

/-- `SBVH::GetIntersectionRecursive` (SBVH.cpp lines 563-597).  `bh` models
the collaborator `BBox::DoesIntersect` (ray-box culling, code not in the
given sources): an interior node whose box fails the test is skipped with its
whole subtree; otherwise both children are visited unconditionally. -/
def getIntersectionRec (bh : BBox → Ray → Bool) (geoms : List Geometry) (r : Ray) :
    SBVHNode → FCost × Isect → FCost × Isect
  | .null, acc => acc
  | .leaf _ off cnt _, acc => leafFold geoms r off cnt acc
  | .interior near far _ _ box, acc =>
    if bh box r then
      getIntersectionRec bh geoms r far (getIntersectionRec bh geoms r near acc)
    else acc

/-- `SBVH::GetIntersection` (SBVH.cpp lines 535-560): the nearest distance
starts at INFINITY with the default (no hit) record; a leaf root is tested
directly without a box test; an interior root's children are both traversed
with no box test on the root itself.  A null root dereference is undefined in
the C++; it is modelled as the no-hit record. -/
def getIntersection (bh : BBox → Ray → Bool) (geoms : List Geometry) (r : Ray) :
    SBVHNode → Isect
  | .null => {}
  | .leaf _ off cnt _ => (leafFold geoms r off cnt (.inf, {})).2
  | .interior near far _ _ _ =>
    (getIntersectionRec bh geoms r far (getIntersectionRec bh geoms r near (.inf, {}))).2

/-- Brute force: fold the same nearest-hit update over every primitive of the
list in order. -/
def bruteForce (geoms : List Geometry) (r : Ray) : FCost × Isect :=
  geoms.foldl (accUpd r) (.inf, {})

/-! ### Structural predicates on built trees -/

/-- The build index carried by a node (0 for null). -/
def SBVHNode.nodeIdxOf : SBVHNode → ℕ
  | .null => 0
  | .leaf i _ _ _ => i
  | .interior _ _ i _ _ => i

/-- A (possibly null) child's build index is below `i`. -/
def childIdxLtB (child : SBVHNode) (i : ℕ) : Bool :=
  match child with
  | .null => true
  | c => decide (c.nodeIdxOf < i)

/-- Every interior node's build index strictly exceeds the build indices of
both of its children, throughout the tree. -/
def idxMonoB : SBVHNode → Bool
  | .null => true
  | .leaf _ _ _ _ => true
  | .interior near far i _ _ =>
    childIdxLtB near i && childIdxLtB far i && idxMonoB near && idxMonoB far

/-- Every build index in the tree is strictly below `c`. -/
def idxAllLtB (c : ℕ) : SBVHNode → Bool
  | .null => true
  | .leaf i _ _ _ => decide (i < c)
  | .interior near far i _ _ => decide (i < c) && idxAllLtB c near && idxAllLtB c far

/-- The number of ordered-list slots covered by the leaves of a subtree. -/
def spanLen : SBVHNode → ℕ
  | .null => 0
  | .leaf _ _ cnt _ => cnt
  | .interior near far _ _ _ => spanLen near + spanLen far

/-- The leaf spans of the subtree tile the interval `[a, b)` of the ordered
list consecutively, in near-then-far order. -/
def spansB : SBVHNode → ℕ → ℕ → Bool
  | .null, a, b => decide (a = b)
  | .leaf _ off cnt _, a, b => decide (off = a ∧ b = a + cnt)
  | .interior near far _ _ _, a, b =>
    spansB near a (a + spanLen near) && spansB far (a + spanLen near) b

/-- Soundness of traversal data for ray `r` on a subtree covering ordered
slots `[a, b)`: leaf spans tile the interval, and whenever an interior box
fails the ray-box test, no primitive in its slots has a positive-distance
hit (the property box containment plus a conservative ray-box test
guarantee). -/
def Sound (bh : BBox → Ray → Bool) (geoms : List Geometry) (r : Ray) :
    SBVHNode → ℕ → ℕ → Prop
  | .null, a, b => a = b
  | .leaf _ off cnt _, a, b => off = a ∧ b = a + cnt
  | .interior near far _ _ box, a, b =>
    ∃ m, Sound bh geoms r near a m ∧ Sound bh geoms r far m b ∧
      (bh box r = false → ∀ j, a ≤ j → j < b → ((geoms.getD j default).isect r).t ≤ 0)

/-! ### Auxiliary forms used in theorem statements -/

/-- The nearest-hit fold over the index interval `[a, b)` of the ordered
list. -/
def foldRange (geoms : List Geometry) (r : Ray) (a b : ℕ) (acc : FCost × Isect) :
    FCost × Isect :=
  (List.range' a (b - a)).foldl (fun x j => accUpd r x (geoms.getD j default)) acc

/-- Whether a `BuildRecursive` outcome is a returned leaf node. -/
def retLeafB : Option (SBVHNode × BuildState) → Bool
  | some (.leaf _ _ _ _, _) => true
  | _ => false

/-- Boolean predicate over an optional value. -/
def optAll {α : Type} (p : α → Bool) : Option α → Bool
  | none => true
  | some a => p a

/-- The SAH minimum cost and winning bucket of a working range, exactly as
the SAH branch computes them. -/
def sahStats (gis : List SBVHGeometryInfo) (first last : ℕ) : ℚ × ℕ :=
  let cb := rangeCentroidBox gis first last
  sahMinFold (objectBuckets cb cb.maxExtentAxis (listSub gis first last))
    (rangeAllBox gis first last)

/-- The SAH split point and partitioned array of a working range. -/
def sahSplitOf (gis : List SBVHGeometryInfo) (first last : ℕ) :
    ℕ × List SBVHGeometryInfo :=
  let cb := rangeCentroidBox gis first last
  bucketPartition cb cb.maxExtentAxis (sahStats gis first last).2 first last gis

/-- Ordering on possibly-infinite cost values (`inf` is the top element). -/
def leF : FCost → FCost → Prop
  | _, .inf => True
  | .inf, .val _ => False
  | .val a, .val b => a ≤ b

/-! ### Concrete instances used by witnesses and counterexamples -/

/-- The unit cube, surface area 6. -/
def cubeB : BBoxNE := ⟨⟨0, 0, 0⟩, ⟨1, 1, 1⟩⟩

/-- A flattened unit box of height 1/4, surface area 3. -/
def slabB : BBoxNE := ⟨⟨0, 0, 0⟩, ⟨1, 1, (1 : ℚ) / 4⟩⟩

/-- Object buckets with one unit cube in bucket 0 and one in bucket 11. -/
def c3objB : List BucketInfo :=
  ((List.replicate NUM_BUCKET ({} : BucketInfo)).set 0
    { count := 1, bbox := some cubeB }).set 11 { count := 1, bbox := some cubeB }

/-- Spatial buckets with one slab in bucket 0 and one in bucket 11. -/
def c3spatB : List BucketInfo :=
  ((List.replicate NUM_BUCKET ({} : BucketInfo)).set 0
    { count := 1, bbox := some slabB }).set 11 { count := 1, bbox := some slabB }

/-- A non-triangle primitive with a given box and an irrelevant intersection
function. -/
def mkGeom (b : BBoxNE) : Geometry := ⟨.other, b, fun _ => {}⟩

/-- Five flat boxes in the z = 0 plane whose SAH minimum split cost is
exactly 5, the cost of not splitting five primitives. -/
def c7geoms : List Geometry :=
  [mkGeom ⟨⟨0, 0, 0⟩, ⟨1, 1, 0⟩⟩,
   mkGeom ⟨⟨(1 : ℚ) / 32, 0, 0⟩, ⟨1, 1, 0⟩⟩,
   mkGeom ⟨⟨(1 : ℚ) / 32, 0, 0⟩, ⟨1, 1, 0⟩⟩,
   mkGeom ⟨⟨(1 : ℚ) / 32, 0, 0⟩, ⟨1, 1, 0⟩⟩,
   mkGeom ⟨⟨(1 : ℚ) / 32, 0, 0⟩, ⟨1, 1, 0⟩⟩]

/-- A working range holding a non-straddling entry followed by a straddling
one. -/
def c2gis : List SBVHGeometryInfo := [⟨0, cubeB, false⟩, ⟨1, cubeB, true⟩]

/-- Two primitives with distinct boxes sharing the centroid (1,1,1). -/
def c6geoms : List Geometry :=
  [mkGeom ⟨⟨0, 0, 0⟩, ⟨2, 2, 2⟩⟩, mkGeom ⟨⟨1, 1, 1⟩, ⟨1, 1, 1⟩⟩]

/-- Two primitives with disjoint unit-cube boxes along x. -/
def w10geoms : List Geometry :=
  [mkGeom ⟨⟨0, 0, 0⟩, ⟨1, 1, 1⟩⟩, mkGeom ⟨⟨2, 0, 0⟩, ⟨3, 1, 1⟩⟩]

/-- The tree the equal-counts build produces on `w10geoms`. -/
def w10node : SBVHNode :=
  .interior (.leaf 0 0 1 (some ⟨⟨0, 0, 0⟩, ⟨1, 1, 1⟩⟩))
    (.leaf 1 1 1 (some ⟨⟨2, 0, 0⟩, ⟨3, 1, 1⟩⟩)) 2 .X (some ⟨⟨0, 0, 0⟩, ⟨3, 1, 1⟩⟩)

/-- The final build state the equal-counts build produces on `w10geoms`. -/
def w10state : BuildState :=
  { geomInfos :=
      [⟨0, ⟨⟨0, 0, 0⟩, ⟨1, 1, 1⟩⟩, false⟩, ⟨1, ⟨⟨2, 0, 0⟩, ⟨3, 1, 1⟩⟩, false⟩],
    nodeCount := 3,
    orderedGeoms := [mkGeom ⟨⟨0, 0, 0⟩, ⟨1, 1, 1⟩⟩, mkGeom ⟨⟨2, 0, 0⟩, ⟨3, 1, 1⟩⟩] }

/-- An always-hit ray-box test for the traversal witness. -/
def c1bh : BBox → Ray → Bool := fun _ _ => true

/-- Two primitives with constant intersection records at distances 3 and 2. -/
def c1geoms : List Geometry :=
  [⟨.other, cubeB, fun _ => ⟨3, 1⟩⟩, ⟨.other, cubeB, fun _ => ⟨2, 2⟩⟩]

/-- A two-leaf tree over `c1geoms`. -/
def c1root : SBVHNode :=
  .interior (.leaf 0 0 1 (some cubeB)) (.leaf 1 1 1 (some cubeB)) 2 .X (some cubeB)

/-- A sample ray. -/
def c1ray : Ray := ⟨⟨0, 0, 0⟩, ⟨1, 0, 0⟩⟩

/-! ## Theorems -/

theorem set_append_length {α : Type} (l₁ l₂ : List α) (a : α) :
    (l₁ ++ l₂).set l₁.length a = l₁ ++ l₂.set 0 a := by
  induction l₁ with
  | nil => rfl
  | cons b t ih => simp [ih]

theorem removeIf_fold {α : Type} (p : α → Bool) (xs : List α) :
    ∀ (suf pre : List α), xs = pre ++ suf →
    suf.foldl (removeIfStep p)
      ((pre.filter fun a => !p a) ++ xs.drop (pre.filter fun a => !p a).length,
       (pre.filter fun a => !p a).length) =
    ((xs.filter fun a => !p a) ++ xs.drop (xs.filter fun a => !p a).length,
     (xs.filter fun a => !p a).length) := by
  intro suf
  induction suf with
  | nil =>
    intro pre h
    subst h
    simp
  | cons a rest ih =>
    intro pre h
    have hx : xs = (pre ++ [a]) ++ rest := by simpa using h
    by_cases hp : p a = true
    · have hf : (pre ++ [a]).filter (fun a => !p a) = pre.filter fun a => !p a := by
        simp [List.filter_append, hp]
      have hstep : removeIfStep p
          ((pre.filter fun a => !p a) ++ xs.drop (pre.filter fun a => !p a).length,
           (pre.filter fun a => !p a).length) a =
          ((pre.filter fun a => !p a) ++ xs.drop (pre.filter fun a => !p a).length,
           (pre.filter fun a => !p a).length) := by
        simp [removeIfStep, hp]
      rw [List.foldl_cons, hstep]
      have := ih (pre ++ [a]) hx
      rwa [hf] at this
    · have hpa : p a = false := by simpa using hp
      have hf : (pre ++ [a]).filter (fun a => !p a) =
          (pre.filter fun a => !p a) ++ [a] := by
        simp [List.filter_append, hpa]
      have hklt : (pre.filter fun a => !p a).length < xs.length := by
        calc (pre.filter fun a => !p a).length ≤ pre.length := List.length_filter_le _ _
        _ < xs.length := by rw [hx]; simp
      have hdrop : xs.drop (pre.filter fun a => !p a).length =
          xs[(pre.filter fun a => !p a).length] ::
            xs.drop ((pre.filter fun a => !p a).length + 1) :=
        List.drop_eq_getElem_cons hklt
      have hstep : removeIfStep p
          ((pre.filter fun a => !p a) ++ xs.drop (pre.filter fun a => !p a).length,
           (pre.filter fun a => !p a).length) a =
          (((pre ++ [a]).filter fun a => !p a) ++
             xs.drop ((pre ++ [a]).filter fun a => !p a).length,
           ((pre ++ [a]).filter fun a => !p a).length) := by
        simp only [removeIfStep, hpa, Bool.false_eq_true, if_false]
        have hset : (List.drop (List.filter (fun a => !p a) pre).length xs).set 0 a =
            a :: List.drop ((List.filter (fun a => !p a) pre).length + 1) xs := by
          rw [hdrop]
          rfl
        rw [set_append_length, hf, hset]
        simp [List.append_assoc]
      rw [List.foldl_cons, hstep]
      exact ih (pre ++ [a]) hx

theorem removeIfModel_eq {α : Type} (p : α → Bool) (xs : List α) :
    removeIfModel p xs =
      (xs.filter fun a => !p a) ++ xs.drop (xs.filter fun a => !p a).length := by
  have h := removeIf_fold p xs xs [] rfl
  simp only [List.filter_nil, List.length_nil, List.drop_zero, List.nil_append] at h
  unfold removeIfModel
  rw [h]

/-- C2 counterexample: on a two-entry working range whose second entry is
flagged straddling, the removal pass of SBVH.cpp lines 374-380 leaves a
straddling entry inside `[first, last)` — the range handed to the partition
step is not free of straddling originals. -/
theorem c2_counterexample :
    (removeIfSub c2gis 0 2).length = 2 ∧
      ((removeIfSub c2gis 0 2).getD 1 default).straddling = true := by decide

/-- C2 amended: `std::remove_if` compacts the non-straddling entries of
`[first, last)` to the front, but its returned new end is discarded and the
bounds are not shrunk, so the tail of the range keeps its prior entries
(straddling originals may remain, and compacted entries may be duplicated, in
the range the partition step processes). -/
theorem c2_amended (l : List SBVHGeometryInfo) (first last : ℕ) :
    removeIfSub l first last =
      listSetSub l first last
        ((listSub l first last).filter (fun gi => !gi.straddling) ++
          (listSub l first last).drop
            ((listSub l first last).filter (fun gi => !gi.straddling)).length) := by
  unfold removeIfSub
  rw [removeIfModel_eq]

/-- C3 counterexample: bucket data on which the spatial-split cost at
boundary 0 equals the object-split cost there, yet the selection loop marks
the spatial split as the winner — the tie goes to the spatial split, not the
object split. -/
theorem c3_counterexample :
    spatialCostAt c3objB c3spatB (some cubeB) 0 =
        some (objectCostAt c3objB (some cubeB) 0) ∧
      (chooseSplit c3objB c3spatB (some cubeB)).isSpatialSplit = true := by
  with_unfolding_all decide

/-- C3 amended: at a boundary where the evaluated spatial cost equals the
object cost, the selection step never adopts the object candidate: the
spatial candidate is tracked (and becomes the minimum whenever it beats the
running one); the object split is adopted only when strictly cheaper. -/
theorem c3_amended (objB spatB : List BucketInfo) (allBox : BBox) (s : SplitSel) (i : ℕ)
    (h : spatialCostAt objB spatB allBox i = some (objectCostAt objB allBox i)) :
    chooseStep objB spatB allBox s i =
      if FCost.lt (.val (objectCostAt objB allBox i)) s.minSplitCost = true then
        { minSplitCost := .val (objectCostAt objB allBox i), minSplitCostBucket := i,
          isSpatialSplit := true,
          spatialSplitCost := .val (objectCostAt objB allBox i) }
      else { s with spatialSplitCost := .val (objectCostAt objB allBox i) } := by
  unfold chooseStep
  rw [h]
  simp [FCost.qlt]

theorem c3_amended_witness :
    spatialCostAt c3objB c3spatB (some cubeB) 0 =
        some (objectCostAt c3objB (some cubeB) 0) ∧
      chooseStep c3objB c3spatB (some cubeB) {} 0 =
        if FCost.lt (.val (objectCostAt c3objB (some cubeB) 0))
            ({} : SplitSel).minSplitCost = true then
          { minSplitCost := .val (objectCostAt c3objB (some cubeB) 0),
            minSplitCostBucket := 0, isSpatialSplit := true,
            spatialSplitCost := .val (objectCostAt c3objB (some cubeB) 0) }
        else { ({} : SplitSel) with
               spatialSplitCost := .val (objectCostAt c3objB (some cubeB) 0) } :=
  ⟨by with_unfolding_all decide,
   c3_amended c3objB c3spatB (some cubeB) {} 0 (by with_unfolding_all decide)⟩

/-- C4 counterexample: bucket data with a met restriction at boundary 0 on
which the code's spatial cost differs from the spec formula (counts from the
spatial buckets only): the code's counts also include the object-bucket
counts. -/
theorem c4_counterexample :
    restrictAt c3objB (some cubeB) 0 = true ∧
      spatialCostAt c3objB c3spatB (some cubeB) 0 ≠
        some (specSpatialCostAt c3spatB (some cubeB) 0) := by
  with_unfolding_all decide

/-- C4 amended: at a boundary where the restriction is met, the evaluated
spatial cost is the spec formula plus the object-count contamination term
`intersectCost * (objCount0*SA0 + objCount1*SA1) / SA(total)` (the loop
reuses `count0`/`count1` without resetting them); at a boundary where the
restriction is not met, no spatial cost is evaluated. -/
theorem c4_amended (objB spatB : List BucketInfo) (allBox : BBox) (i : ℕ) :
    spatialCostAt objB spatB allBox i =
      if restrictAt objB allBox i = true then
        some (specSpatialCostAt spatB allBox i +
          COST_INTERSECTION *
            ((countUpTo objB i : ℚ) * (unionUpTo spatB i).surfaceArea +
             (countFrom objB i : ℚ) * (unionFrom spatB i).surfaceArea) * invSAOf allBox)
      else none := by
  unfold spatialCostAt specSpatialCostAt
  split_ifs with hr
  · congr 1
    push_cast
    ring
  · rfl

theorem Vec3.cmin_self (v : Vec3) : v.cmin v = v := by simp [Vec3.cmin]

theorem Vec3.cmax_self (v : Vec3) : v.cmax v = v := by simp [Vec3.cmax]

theorem foldPoint_some (c : Vec3) :
    ∀ (l : List SBVHGeometryInfo), (∀ gi ∈ l, gi.bbox.centroid = c) →
      l.foldl (fun b gi => BBox.unionPoint b gi.bbox.centroid) (some ⟨c, c⟩) =
        some ⟨c, c⟩ := by
  intro l
  induction l with
  | nil => intro _; rfl
  | cons a t ih =>
    intro h
    have ha : a.bbox.centroid = c := h a (List.mem_cons_self a t)
    have hstep : BBox.unionPoint (some ⟨c, c⟩) a.bbox.centroid = some ⟨c, c⟩ := by
      rw [ha]
      simp [BBox.unionPoint, Vec3.cmin_self, Vec3.cmax_self]
    rw [List.foldl_cons, hstep]
    exact ih fun gi hgi => h gi (List.mem_cons_of_mem a hgi)

theorem foldPoint (c : Vec3) (l : List SBVHGeometryInfo) (hne : l ≠ [])
    (h : ∀ gi ∈ l, gi.bbox.centroid = c) :
    l.foldl (fun b gi => BBox.unionPoint b gi.bbox.centroid) none = some ⟨c, c⟩ := by
  cases l with
  | nil => exact absurd rfl hne
  | cons a t =>
    have ha : a.bbox.centroid = c := h a (List.mem_cons_self a t)
    rw [List.foldl_cons]
    have hstep : BBox.unionPoint none a.bbox.centroid = some ⟨c, c⟩ := by
      rw [ha]; rfl
    rw [hstep]
    exact foldPoint_some c t fun gi hgi => h gi (List.mem_cons_of_mem a hgi)

theorem getD_range_map {α : Type} (l : List α) (d : α) :
    (List.range l.length).map (fun i => l.getD i d) = l := by
  induction l with
  | nil => simp
  | cons a t ih =>
    rw [List.length_cons, List.range_succ_eq_map]
    simp only [List.map_cons, List.getD_cons_zero, List.map_map]
    congr 1

theorem initGeomInfos_length (geoms : List Geometry) :
    (initGeomInfos geoms).length = geoms.length := by
  simp [initGeomInfos]

theorem initGeomInfos_map (geoms : List Geometry) :
    (initGeomInfos geoms).map (fun gi => geoms.getD gi.geometryId default) = geoms := by
  unfold initGeomInfos
  rw [List.map_map]
  have hco : ((fun gi => geoms.getD gi.geometryId default) ∘
      fun i => ({ geometryId := i, bbox := (geoms.getD i default).gbox } : SBVHGeometryInfo)) =
      fun i => geoms.getD i default := by
    funext i
    rfl
  rw [hco, getD_range_map]

theorem initGeomInfos_centroid {geoms : List Geometry} {c : Vec3}
    (hc : ∀ g ∈ geoms, g.gbox.centroid = c) :
    ∀ gi ∈ initGeomInfos geoms, gi.bbox.centroid = c := by
  intro gi hgi
  unfold initGeomInfos at hgi
  obtain ⟨i, hi, rfl⟩ := List.mem_map.1 hgi
  have hlt : i < geoms.length := List.mem_range.1 hi
  have : geoms.getD i default = geoms[i] := List.getD_eq_getElem geoms default hlt
  simp only [this]
  exact hc _ (List.getElem_mem hlt)

theorem listSub_full {α : Type} (l : List α) : listSub l 0 l.length = l := by
  simp [listSub]

/-- C6: when at least two primitives share one identical centroid, the
centroid box is a point, the zero-extent test fires on the chosen axis before
the strategy switch is consulted, and the build returns a single leaf
containing all of them under every strategy. -/
theorem c6_degenerate_centroids (sm : SplitMethod) (maxG fuel : ℕ) (c : Vec3)
    (geoms : List Geometry) (h2 : 2 ≤ geoms.length)
    (hc : ∀ g ∈ geoms, g.gbox.centroid = c) :
    build geoms sm maxG (fuel + 1) =
      some (.leaf 0 0 geoms.length (rangeAllBox (initGeomInfos geoms) 0 geoms.length),
            { geomInfos := initGeomInfos geoms, nodeCount := 1,
              orderedGeoms := geoms }) := by
  have hlen : (initGeomInfos geoms).length = geoms.length := initGeomInfos_length geoms
  have hsub : listSub (initGeomInfos geoms) 0 geoms.length = initGeomInfos geoms := by
    rw [← hlen, listSub_full]
  have hne : initGeomInfos geoms ≠ [] := by
    intro h
    rw [h] at hlen
    simp at hlen
    omega
  have hcent : rangeCentroidBox (initGeomInfos geoms) 0 geoms.length = some ⟨c, c⟩ := by
    unfold rangeCentroidBox
    rw [hsub]
    exact foldPoint c (initGeomInfos geoms) hne (initGeomInfos_centroid hc)
  have hdeg : ∀ dim : EAxis,
      BBox.degenerateOn (some ⟨c, c⟩) dim = true := by
    intro dim
    simp [BBox.degenerateOn]
  unfold build initState
  simp only [buildRecursive]
  rw [if_neg (by omega : ¬ geoms.length < 0)]
  rw [if_neg (by omega : ¬ (geoms.length - 0 = 1))]
  simp only [hcent, hdeg, if_true]
  simp only [makeLeaf, Nat.sub_zero, hsub, List.nil_append, Option.some.injEq]
  rw [initGeomInfos_map geoms]
  rfl

theorem c6_degenerate_centroids_witness :
    2 ≤ c6geoms.length ∧ (∀ g ∈ c6geoms, g.gbox.centroid = ⟨1, 1, 1⟩) ∧
      build c6geoms .SAH 4 1 =
        some (.leaf 0 0 c6geoms.length
            (rangeAllBox (initGeomInfos c6geoms) 0 c6geoms.length),
          { geomInfos := initGeomInfos c6geoms, nodeCount := 1,
            orderedGeoms := c6geoms }) :=
  ⟨by decide, by with_unfolding_all decide,
   c6_degenerate_centroids .SAH 4 0 ⟨1, 1, 1⟩ c6geoms (by decide)
     (by with_unfolding_all decide)⟩

theorem retLeafB_interiorStep (geoms : List Geometry) (sm : SplitMethod)
    (maxG fuel : ℕ) (st : BuildState) (first mid last : ℕ) (dim : EAxis)
    (gis2 : List SBVHGeometryInfo) :
    retLeafB (interiorStep geoms sm maxG fuel st first mid last dim gis2) = false := by
  unfold interiorStep
  split
  · rfl
  · split
    · rfl
    · simp [retLeafB, mkInterior]

/-- C7 amended: in SAH mode with more than 4 primitives (and a non-degenerate
centroid box), a leaf is created exactly when the minimum bucket-split cost is
NOT strictly below the cost of not splitting (so also on ties) and the range
size is within the max-primitives-per-leaf bound; otherwise the range is
partitioned into buckets at most the winning bucket versus the rest and an
interior node is built. -/
theorem c7_amended (geoms : List Geometry) (maxG fuel : ℕ) (st : BuildState)
    (first last : ℕ) (h4 : 4 < last - first)
    (hd : (rangeCentroidBox st.geomInfos first last).degenerateOn
        (rangeCentroidBox st.geomInfos first last).maxExtentAxis = false) :
    (retLeafB (buildRecursive geoms .SAH maxG (fuel + 1) st first last) = true ↔
      (last - first ≤ maxG ∧
        ¬ (sahStats st.geomInfos first last).1 <
          ((last - first : ℕ) : ℚ) * COST_INTERSECTION)) ∧
    ((maxG < last - first ∨
        (sahStats st.geomInfos first last).1 <
          ((last - first : ℕ) : ℚ) * COST_INTERSECTION) →
      buildRecursive geoms .SAH maxG (fuel + 1) st first last =
        interiorStep geoms .SAH maxG fuel st first
          (sahSplitOf st.geomInfos first last).1 last
          (rangeCentroidBox st.geomInfos first last).maxExtentAxis
          (sahSplitOf st.geomInfos first last).2) := by
  have hguard : ¬ (last < first) := by omega
  have h1 : ¬ (last - first = 1) := by omega
  have h44 : ¬ (last - first ≤ 4) := by omega
  have hbr : buildBranch geoms .SAH maxG st first last
      (rangeAllBox st.geomInfos first last) (rangeCentroidBox st.geomInfos first last)
      (rangeCentroidBox st.geomInfos first last).maxExtentAxis =
      if maxG < last - first ∨
          (sahStats st.geomInfos first last).1 < ((last - first : ℕ) : ℚ) then
        .inr (sahSplitOf st.geomInfos first last)
      else
        .inl (makeLeaf geoms st.geomInfos st.nodeCount st.orderedGeoms first last
          (rangeAllBox st.geomInfos first last)) := by
    simp only [buildBranch]
    rw [if_neg h44]
    rfl
  have hmain : buildRecursive geoms .SAH maxG (fuel + 1) st first last =
      if maxG < last - first ∨
          (sahStats st.geomInfos first last).1 < ((last - first : ℕ) : ℚ) then
        interiorStep geoms .SAH maxG fuel st first
          (sahSplitOf st.geomInfos first last).1 last
          (rangeCentroidBox st.geomInfos first last).maxExtentAxis
          (sahSplitOf st.geomInfos first last).2
      else
        some (makeLeaf geoms st.geomInfos st.nodeCount st.orderedGeoms first last
          (rangeAllBox st.geomInfos first last)) := by
    simp only [buildRecursive]
    rw [if_neg hguard, if_neg h1]
    rw [if_neg (show ¬ ((rangeCentroidBox st.geomInfos first last).degenerateOn
        (rangeCentroidBox st.geomInfos first last).maxExtentAxis = true) by
      rw [hd]; simp)]
    rw [hbr]
    split_ifs with hC
    · rfl
    · rfl
  rw [hmain]
  constructor
  · split_ifs with hC
    · rw [retLeafB_interiorStep, COST_INTERSECTION, mul_one]
      constructor
      · intro h
        exact absurd h (by simp)
      · rintro ⟨hle, hnlt⟩
        rcases hC with h | h
        · omega
        · exact absurd h hnlt
    · rw [COST_INTERSECTION, mul_one]
      push_neg at hC
      constructor
      · intro _
        exact ⟨by omega, not_lt.mpr hC.2⟩
      · intro _
        simp [retLeafB, makeLeaf]
  · intro hC
    rw [COST_INTERSECTION, mul_one] at hC
    rw [if_pos hC]

set_option maxRecDepth 4000 in
theorem c7_counterexample :
    ¬ (retLeafB (build c7geoms .SAH 10 1) = true ↔
      (((sahStats (initGeomInfos c7geoms) 0 5).1 > ((5 : ℚ)) * COST_INTERSECTION) ∧
        (5 : ℕ) ≤ 10)) := by
  with_unfolding_all decide

set_option maxRecDepth 4000 in
theorem c7_amended_witness :
    4 < 5 - 0 ∧
      ((rangeCentroidBox (initState c7geoms).geomInfos 0 5).degenerateOn
        (rangeCentroidBox (initState c7geoms).geomInfos 0 5).maxExtentAxis = false) ∧
      (retLeafB (buildRecursive c7geoms .SAH 10 (0 + 1) (initState c7geoms) 0 5) = true ↔
        (5 - 0 ≤ 10 ∧
          ¬ (sahStats (initState c7geoms).geomInfos 0 5).1 <
            ((5 - 0 : ℕ) : ℚ) * COST_INTERSECTION)) :=
  ⟨by decide, by with_unfolding_all decide,
   (c7_amended c7geoms 10 0 (initState c7geoms) 0 5 (by decide)
     (by with_unfolding_all decide)).1⟩

theorem branch_small (geoms : List Geometry) (sm : SplitMethod) (maxG : ℕ)
    (st : BuildState) (first last : ℕ) (bA bC : BBox) (dim : EAxis)
    (h : last - first ≤ 4) :
    buildBranch geoms sm maxG st first last bA bC dim =
      .inr (partitionEqualCounts dim first last st.geomInfos) := by
  cases sm <;> simp [buildBranch, h]

theorem buildRec_small_eq (geoms : List Geometry) (sm : SplitMethod) (maxG : ℕ) :
    ∀ (fuel : ℕ) (st : BuildState) (first last : ℕ), last - first ≤ 4 →
      buildRecursive geoms sm maxG fuel st first last =
        buildRecursive geoms .EqualCounts maxG fuel st first last := by
  intro fuel
  induction fuel with
  | zero => intro st first last h; rfl
  | succ n ih =>
    intro st first last h
    by_cases hg : last < first
    · simp only [buildRecursive, if_pos hg]
    · by_cases h1 : last - first = 1
      · simp only [buildRecursive, if_neg hg, if_pos h1]
      · by_cases hdg : (rangeCentroidBox st.geomInfos first last).degenerateOn
            (rangeCentroidBox st.geomInfos first last).maxExtentAxis = true
        · simp only [buildRecursive, if_neg hg, if_neg h1, hdg, if_true]
        · have hm1 : (first + last) / 2 - first ≤ 4 := by omega
          have hm2 : last - (first + last) / 2 ≤ 4 := by omega
          simp only [buildRecursive, if_neg hg, if_neg h1, hdg, Bool.false_eq_true,
            if_false]
          rw [branch_small geoms sm maxG st first last _ _ _ h]
          rw [branch_small geoms .EqualCounts maxG st first last _ _ _ h]
          dsimp only
          rw [show (partitionEqualCounts
              (rangeCentroidBox st.geomInfos first last).maxExtentAxis
              first last st.geomInfos).1 = (first + last) / 2 from rfl]
          rw [ih _ first ((first + last) / 2) hm1]
          cases hnear : buildRecursive geoms .EqualCounts maxG n
              { st with geomInfos :=
                  (partitionEqualCounts
                    (rangeCentroidBox st.geomInfos first last).maxExtentAxis
                    first last st.geomInfos).2 }
              first ((first + last) / 2) with
          | none => rfl
          | some res =>
            obtain ⟨nearChild, st2⟩ := res
            dsimp only
            rw [ih st2 ((first + last) / 2) last hm2]

/-- C9: a recursion range of 2 to 4 primitives with a non-degenerate centroid
box bypasses all cost evaluation under SAH and SpatialSplit_SAH alike: the
range is partitioned by equal counts at the midpoint index and an interior
node is built (the result is never a leaf, so the cost-versus-leaf comparison
never applies to such ranges). -/
theorem c9_small_ranges (geoms : List Geometry) (sm : SplitMethod) (maxG fuel : ℕ)
    (st : BuildState) (first last : ℕ)
    (_hsm : sm = .SAH ∨ sm = .SpatialSplit_SAH)
    (h2 : 2 ≤ last - first) (h4 : last - first ≤ 4)
    (hd : (rangeCentroidBox st.geomInfos first last).degenerateOn
        (rangeCentroidBox st.geomInfos first last).maxExtentAxis = false) :
    buildRecursive geoms sm maxG (fuel + 1) st first last =
      interiorStep geoms sm maxG fuel st first ((first + last) / 2) last
        (rangeCentroidBox st.geomInfos first last).maxExtentAxis
        (partitionEqualCounts
          (rangeCentroidBox st.geomInfos first last).maxExtentAxis
          first last st.geomInfos).2 ∧
    buildRecursive geoms sm maxG (fuel + 1) st first last =
      buildRecursive geoms .EqualCounts maxG (fuel + 1) st first last ∧
    retLeafB (buildRecursive geoms sm maxG (fuel + 1) st first last) = false := by
  have hguard : ¬ (last < first) := by omega
  have h1 : ¬ (last - first = 1) := by omega
  have hmain : buildRecursive geoms sm maxG (fuel + 1) st first last =
      interiorStep geoms sm maxG fuel st first ((first + last) / 2) last
        (rangeCentroidBox st.geomInfos first last).maxExtentAxis
        (partitionEqualCounts
          (rangeCentroidBox st.geomInfos first last).maxExtentAxis
          first last st.geomInfos).2 := by
    simp only [buildRecursive, if_neg hguard, if_neg h1, hd, Bool.false_eq_true,
      if_false]
    rw [branch_small geoms sm maxG st first last _ _ _ h4]
    rfl
  exact ⟨hmain, buildRec_small_eq geoms sm maxG (fuel + 1) st first last h4,
    by rw [hmain, retLeafB_interiorStep]⟩

theorem c9_small_ranges_witness :
    ((SplitMethod.SAH = SplitMethod.SAH ∨ SplitMethod.SAH = SplitMethod.SpatialSplit_SAH) ∧
      2 ≤ 2 - 0 ∧ 2 - 0 ≤ 4 ∧
      (rangeCentroidBox (initState w10geoms).geomInfos 0 2).degenerateOn
        (rangeCentroidBox (initState w10geoms).geomInfos 0 2).maxExtentAxis = false) ∧
    retLeafB (buildRecursive w10geoms .SAH 4 (1 + 1) (initState w10geoms) 0 2) = false :=
  ⟨⟨Or.inl rfl, by decide, by decide, by with_unfolding_all decide⟩,
   (c9_small_ranges w10geoms .SAH 4 1 (initState w10geoms) 0 2 (Or.inl rfl)
     (by decide) (by decide) (by with_unfolding_all decide)).2.2⟩

theorem idxAllLtB_mono :
    ∀ (nd : SBVHNode) (c c' : ℕ), c ≤ c' → idxAllLtB c nd = true →
      idxAllLtB c' nd = true := by
  intro nd
  induction nd with
  | null => intro c c' _ _; rfl
  | leaf i o ct b =>
    intro c c' hcc h
    simp only [idxAllLtB, decide_eq_true_eq] at h ⊢
    omega
  | interior near far i ax b ihn ihf =>
    intro c c' hcc h
    simp only [idxAllLtB, Bool.and_eq_true, decide_eq_true_eq] at h ⊢
    exact ⟨⟨by omega, ihn c c' hcc h.1.2⟩, ihf c c' hcc h.2⟩

theorem childIdxLtB_of_allLt :
    ∀ (nd : SBVHNode) (c c' : ℕ), idxAllLtB c nd = true → c ≤ c' →
      childIdxLtB nd c' = true := by
  intro nd c c' h hcc
  cases nd with
  | null => rfl
  | leaf i o ct b =>
    simp only [idxAllLtB, decide_eq_true_eq] at h
    simp only [childIdxLtB, SBVHNode.nodeIdxOf, decide_eq_true_eq]
    omega
  | interior near far i ax b =>
    simp only [idxAllLtB, Bool.and_eq_true, decide_eq_true_eq] at h
    simp only [childIdxLtB, SBVHNode.nodeIdxOf, decide_eq_true_eq]
    omega

theorem leaf_outcome (geoms : List Geometry) (gis : List SBVHGeometryInfo)
    (nodeCount : ℕ) (ordered : List Geometry) (first last : ℕ) (bbAll : BBox)
    (nd : SBVHNode) (st' : BuildState)
    (h : makeLeaf geoms gis nodeCount ordered first last bbAll = (nd, st')) :
    nodeCount ≤ st'.nodeCount ∧ idxMonoB nd = true ∧
      idxAllLtB st'.nodeCount nd = true := by
  simp only [makeLeaf, Prod.mk.injEq] at h
  obtain ⟨h1, h2⟩ := h
  subst h1
  subst h2
  simp [idxMonoB, idxAllLtB]

theorem branch_inl (geoms : List Geometry) (sm : SplitMethod) (maxG : ℕ)
    (st : BuildState) (first last : ℕ) (bA bC : BBox) (dim : EAxis)
    (res : SBVHNode × BuildState)
    (h : buildBranch geoms sm maxG st first last bA bC dim = .inl res) :
    ∃ gis2, res = makeLeaf geoms gis2 st.nodeCount st.orderedGeoms first last bA := by
  cases sm with
  | EqualCounts => simp [buildBranch] at h
  | SAH =>
    simp only [buildBranch] at h
    split_ifs at h with h4 hC
    all_goals
      first
      | exact ⟨st.geomInfos, (Sum.inl.inj h).symm⟩
      | exact ⟨st.geomInfos, h.symm⟩
      | simp at h
  | SpatialSplit_SAH =>
    simp only [buildBranch] at h
    split_ifs at h with h4 hC
    all_goals
      first
      | exact ⟨_, (Sum.inl.inj h).symm⟩
      | exact ⟨_, h.symm⟩
      | simp at h

theorem buildRec_idx (geoms : List Geometry) (sm : SplitMethod) (maxG : ℕ) :
    ∀ (fuel : ℕ) (st : BuildState) (first last : ℕ) (nd : SBVHNode) (st' : BuildState),
      buildRecursive geoms sm maxG fuel st first last = some (nd, st') →
      st.nodeCount ≤ st'.nodeCount ∧ idxMonoB nd = true ∧
        idxAllLtB st'.nodeCount nd = true := by
  intro fuel
  induction fuel with
  | zero =>
    intro st first last nd st' h
    exact absurd h (by simp [buildRecursive])
  | succ n ih =>
    intro st first last nd st' h
    simp only [buildRecursive] at h
    by_cases hg : last < first
    · rw [if_pos hg] at h
      simp only [Option.some.injEq, Prod.mk.injEq] at h
      obtain ⟨h1, h2⟩ := h
      subst h1
      subst h2
      simp [idxMonoB, idxAllLtB]
    · rw [if_neg hg] at h
      by_cases h1 : last - first = 1
      · rw [if_pos h1] at h
        exact leaf_outcome _ _ _ _ _ _ _ _ _ (Option.some.inj h)
      · rw [if_neg h1] at h
        by_cases hdg : (rangeCentroidBox st.geomInfos first last).degenerateOn
            (rangeCentroidBox st.geomInfos first last).maxExtentAxis = true
        · rw [if_pos hdg] at h
          exact leaf_outcome _ _ _ _ _ _ _ _ _ (Option.some.inj h)
        · rw [if_neg hdg] at h
          cases hbr : buildBranch geoms sm maxG st first last
              (rangeAllBox st.geomInfos first last)
              (rangeCentroidBox st.geomInfos first last)
              (rangeCentroidBox st.geomInfos first last).maxExtentAxis with
          | inl res =>
            rw [hbr] at h
            dsimp only at h
            obtain ⟨gis2, hres⟩ := branch_inl _ _ _ _ _ _ _ _ _ _ hbr
            rw [hres] at h
            exact leaf_outcome _ _ _ _ _ _ _ _ _ (Option.some.inj h)
          | inr mg =>
            rw [hbr] at h
            dsimp only at h
            cases hnear : buildRecursive geoms sm maxG n
                { st with geomInfos := mg.2 } first mg.1 with
            | none => rw [hnear] at h; exact absurd h (by simp)
            | some resN =>
              obtain ⟨nearChild, st2⟩ := resN
              rw [hnear] at h
              dsimp only at h
              cases hfar : buildRecursive geoms sm maxG n st2 mg.1 last with
              | none => rw [hfar] at h; exact absurd h (by simp)
              | some resF =>
                obtain ⟨farChild, st3⟩ := resF
                rw [hfar] at h
                dsimp only at h
                simp only [Option.some.injEq, Prod.mk.injEq] at h
                obtain ⟨h2, h3⟩ := h
                subst h2
                subst h3
                have hN := ih _ _ _ _ _ hnear
                have hF := ih _ _ _ _ _ hfar
                have hN1 : st.nodeCount ≤ st2.nodeCount := hN.1
                have hF1 : st2.nodeCount ≤ st3.nodeCount := hF.1
                refine ⟨?_, ?_, ?_⟩
                · show st.nodeCount ≤ st3.nodeCount + 1
                  omega
                · simp only [mkInterior, idxMonoB, Bool.and_eq_true]
                  exact ⟨⟨⟨childIdxLtB_of_allLt _ _ _ hN.2.2 hF1,
                    childIdxLtB_of_allLt _ _ _ hF.2.2 (le_refl _)⟩,
                    hN.2.1⟩, hF.2.1⟩
                · show idxAllLtB (st3.nodeCount + 1) _ = true
                  simp only [mkInterior, idxAllLtB, Bool.and_eq_true, decide_eq_true_eq]
                  exact ⟨⟨by omega, idxAllLtB_mono _ _ _ (by omega) hN.2.2⟩,
                    idxAllLtB_mono _ _ _ (by omega) hF.2.2⟩

/-- C8: every tree the build produces has strictly decreasing build indices
down the tree: an interior node's index (taken from the shared post-order
counter after both children are built) strictly exceeds both children's
indices. -/
theorem c8_monotonic_indices (geoms : List Geometry) (sm : SplitMethod)
    (maxG fuel : ℕ) :
    optAll (fun out => idxMonoB out.1) (build geoms sm maxG fuel) = true := by
  unfold build
  cases h : buildRecursive geoms sm maxG fuel (initState geoms) 0 geoms.length with
  | none => rfl
  | some out =>
    obtain ⟨nd, st'⟩ := out
    have hinv := buildRec_idx geoms sm maxG fuel _ _ _ _ _ h
    simpa [optAll] using hinv.2.1

theorem buildRec_empty_range (geoms : List Geometry) (sm : SplitMethod) (maxG : ℕ) :
    ∀ (fuel : ℕ) (st : BuildState), buildRecursive geoms sm maxG fuel st 0 0 = none := by
  intro fuel
  induction fuel with
  | zero => intro st; rfl
  | succ n ih =>
    intro st
    simp only [buildRecursive]
    cases sm <;>
      simp [buildBranch, partitionEqualCounts, listSub, listSetSub, rangeAllBox,
        rangeCentroidBox, BBox.degenerateOn, ih]

theorem listSub_len {α : Type} (l : List α) (first last : ℕ) (h1 : first ≤ last)
    (h2 : last ≤ l.length) : (listSub l first last).length = last - first := by
  simp only [listSub, List.length_take, List.length_drop]
  omega

theorem listSetSub_length {α : Type} (l m : List α) (first last : ℕ)
    (h1 : first ≤ last) (h2 : last ≤ l.length) (hm : m.length = last - first) :
    (listSetSub l first last m).length = l.length := by
  simp only [listSetSub, List.length_append, List.length_take, List.length_drop]
  omega

theorem listSetSub_take {α : Type} (l m : List α) (first last : ℕ)
    (h1 : first ≤ last) (h2 : last ≤ l.length) :
    (listSetSub l first last m).take first = l.take first := by
  simp only [listSetSub, List.append_assoc]
  rw [List.take_append_of_le_length (by simp; omega)]
  rw [List.take_take]
  simp

theorem listSetSub_drop {α : Type} (l m : List α) (first last : ℕ)
    (h1 : first ≤ last) (h2 : last ≤ l.length) (hm : m.length = last - first) :
    (listSetSub l first last m).drop last = l.drop last := by
  have hpre : (l.take first ++ m).length = last := by
    simp only [List.length_append, List.length_take]
    omega
  calc (listSetSub l first last m).drop last
      = ((l.take first ++ m) ++ l.drop last).drop (l.take first ++ m).length := by
        rw [hpre]; simp [listSetSub, List.append_assoc]
    _ = l.drop last := List.drop_left _ _

theorem listSub_listSetSub {α : Type} (l m : List α) (first last : ℕ)
    (h1 : first ≤ last) (h2 : last ≤ l.length) (hm : m.length = last - first) :
    listSub (listSetSub l first last m) first last = m := by
  have hpre : (l.take first).length = first := by
    simp only [List.length_take]
    omega
  unfold listSub listSetSub
  rw [List.append_assoc]
  nth_rewrite 2 [show first = (l.take first).length from hpre.symm]
  rw [List.drop_left]
  rw [List.take_append_of_le_length (by omega)]
  rw [List.take_of_length_le (by omega)]

theorem listSub_eq_take_drop {α : Type} (l : List α) (a b : ℕ) :
    listSub l a b = (l.take b).drop a := by
  rw [listSub, List.drop_take]

theorem listSub_split {α : Type} (l : List α) (a b c : ℕ) (hab : a ≤ b)
    (hbc : b ≤ c) : listSub l a c = listSub l a b ++ listSub l b c := by
  simp only [listSub]
  rw [show c - a = (b - a) + (c - b) by omega, List.take_add]
  congr 1
  rw [List.drop_drop, show a + (b - a) = b by omega]

theorem insertByLt_perm {α : Type} (lt : α → α → Bool) (a : α) :
    ∀ l : List α, (insertByLt lt a l).Perm (a :: l) := by
  intro l
  induction l with
  | nil => exact List.Perm.refl _
  | cons b bs ih =>
    simp only [insertByLt]
    split_ifs with hlt
    · exact (ih.cons b).trans (List.Perm.swap a b bs)
    · exact List.Perm.refl _

theorem insSort_perm {α : Type} (lt : α → α → Bool) :
    ∀ l : List α, (insSort lt l).Perm l := by
  intro l
  induction l with
  | nil => exact List.Perm.refl _
  | cons a as ih =>
    simp only [insSort]
    exact (insertByLt_perm lt a _).trans (ih.cons a)

theorem insSort_length {α : Type} (lt : α → α → Bool) (l : List α) :
    (insSort lt l).length = l.length :=
  (insSort_perm lt l).length_eq

theorem spansB_len : ∀ (nd : SBVHNode) (a b : ℕ), spansB nd a b = true →
    b = a + spanLen nd := by
  intro nd
  induction nd with
  | null =>
    intro a b h
    simp only [spansB, decide_eq_true_eq] at h
    simp [spanLen]
    omega
  | leaf i o c bb =>
    intro a b h
    simp only [spansB, decide_eq_true_eq] at h
    simp [spanLen]
    omega
  | interior near far i ax bb ihn ihf =>
    intro a b h
    simp only [spansB, Bool.and_eq_true] at h
    have h1 := ihn _ _ h.1
    have h2 := ihf _ _ h.2
    simp [spanLen]
    omega

theorem ec_leaf_case (geoms : List Geometry) (st : BuildState) (first last : ℕ)
    (nd : SBVHNode) (st' : BuildState) (bb : BBox)
    (h : makeLeaf geoms st.geomInfos st.nodeCount st.orderedGeoms first last bb =
      (nd, st'))
    (hfl : first ≤ last) (hlen : last ≤ st.geomInfos.length) :
    st'.geomInfos.length = st.geomInfos.length ∧
    st'.geomInfos.take first = st.geomInfos.take first ∧
    st'.geomInfos.drop last = st.geomInfos.drop last ∧
    (listSub st'.geomInfos first last).Perm (listSub st.geomInfos first last) ∧
    st'.orderedGeoms.length = st.orderedGeoms.length + (last - first) ∧
    st'.orderedGeoms.take st.orderedGeoms.length = st.orderedGeoms ∧
    (st'.orderedGeoms.drop st.orderedGeoms.length).Perm
      ((listSub st.geomInfos first last).map (fun gi => geoms.getD gi.geometryId default)) ∧
    spansB nd st.orderedGeoms.length st'.orderedGeoms.length = true := by
  simp only [makeLeaf, Prod.mk.injEq] at h
  obtain ⟨h1, h2⟩ := h
  subst h1
  subst h2
  refine ⟨rfl, rfl, rfl, List.Perm.refl _, ?_, ?_, ?_, ?_⟩
  · simp only [List.length_append, List.length_map]
    rw [listSub_len _ _ _ hfl hlen]
  · exact List.take_left _ _
  · rw [List.drop_left]
  · simp [spansB, List.length_append, List.length_map, listSub_len _ _ _ hfl hlen]

theorem ec_interior_glue (geoms : List Geometry) (ord0 : List Geometry)
    (A A1 A2 A3 : List SBVHGeometryInfo) (ord2 ord3 : List Geometry)
    (near far : SBVHNode) (idx3 : ℕ) (dim : EAxis) (first mid last : ℕ)
    (hfl : first ≤ last) (_hlen : last ≤ A.length)
    (hm1 : first ≤ mid) (hm2 : mid ≤ last)
    (hA1len : A1.length = A.length)
    (hA1take : A1.take first = A.take first)
    (hA1drop : A1.drop last = A.drop last)
    (hA1perm : (listSub A1 first last).Perm (listSub A first last))
    (N1 : A2.length = A1.length)
    (N2 : A2.take first = A1.take first)
    (N3 : A2.drop mid = A1.drop mid)
    (N4 : (listSub A2 first mid).Perm (listSub A1 first mid))
    (N5 : ord2.length = ord0.length + (mid - first))
    (N6 : ord2.take ord0.length = ord0)
    (N7 : (ord2.drop ord0.length).Perm ((listSub A1 first mid).map
      (fun gi => geoms.getD gi.geometryId default)))
    (N8 : spansB near ord0.length ord2.length = true)
    (F1 : A3.length = A2.length)
    (F2 : A3.take mid = A2.take mid)
    (F3 : A3.drop last = A2.drop last)
    (F4 : (listSub A3 mid last).Perm (listSub A2 mid last))
    (F5 : ord3.length = ord2.length + (last - mid))
    (F6 : ord3.take ord2.length = ord2)
    (F7 : (ord3.drop ord2.length).Perm ((listSub A2 mid last).map
      (fun gi => geoms.getD gi.geometryId default)))
    (F8 : spansB far ord2.length ord3.length = true) :
    A3.length = A.length ∧
    A3.take first = A.take first ∧
    A3.drop last = A.drop last ∧
    (listSub A3 first last).Perm (listSub A first last) ∧
    ord3.length = ord0.length + (last - first) ∧
    ord3.take ord0.length = ord0 ∧
    (ord3.drop ord0.length).Perm ((listSub A first last).map
      (fun gi => geoms.getD gi.geometryId default)) ∧
    spansB (mkInterior near far idx3 dim) ord0.length ord3.length = true := by
  have s2 : listSub A2 mid last = listSub A1 mid last := by
    unfold listSub
    rw [N3]
  refine ⟨?_, ?_, ?_, ?_, ?_, ?_, ?_, ?_⟩
  · omega
  · calc A3.take first = (A3.take mid).take first := by rw [List.take_take, min_eq_left hm1]
    _ = (A2.take mid).take first := by rw [F2]
    _ = A2.take first := by rw [List.take_take, min_eq_left hm1]
    _ = A1.take first := N2
    _ = A.take first := hA1take
  · calc A3.drop last = A2.drop last := F3
    _ = (A2.drop mid).drop (last - mid) := by rw [List.drop_drop]; congr 1; omega
    _ = (A1.drop mid).drop (last - mid) := by rw [N3]
    _ = A1.drop last := by rw [List.drop_drop]; congr 1; omega
    _ = A.drop last := hA1drop
  · have s1 : listSub A3 first mid = listSub A2 first mid := by
      rw [listSub_eq_take_drop, listSub_eq_take_drop, F2]
    have pnear : (listSub A3 first mid).Perm (listSub A1 first mid) := by
      rw [s1]
      exact N4
    have pfar : (listSub A3 mid last).Perm (listSub A1 mid last) := by
      have hx := F4
      rwa [s2] at hx
    rw [listSub_split A3 first mid last hm1 hm2]
    refine (pnear.append pfar).trans ?_
    rw [← listSub_split A1 first mid last hm1 hm2]
    exact hA1perm
  · omega
  · have hole : ord0.length ≤ ord2.length := by omega
    calc ord3.take ord0.length
        = (ord3.take ord2.length).take ord0.length := by
          rw [List.take_take, min_eq_left hole]
    _ = ord2.take ord0.length := by rw [F6]
    _ = ord0 := N6
  · have e5 : ord3 = ord2 ++ ord3.drop ord2.length := by
      conv_lhs => rw [← List.take_append_drop ord2.length ord3]
      rw [F6]
    have g7pre : ord3.drop ord0.length =
        ord2.drop ord0.length ++ ord3.drop ord2.length := by
      conv_lhs => rw [e5]
      rw [List.drop_append_of_le_length (by omega)]
    have pf7 : (ord3.drop ord2.length).Perm ((listSub A1 mid last).map
        (fun gi => geoms.getD gi.geometryId default)) := by
      have hx := F7
      rwa [s2] at hx
    rw [g7pre]
    refine (N7.append pf7).trans ?_
    rw [← List.map_append, ← listSub_split A1 first mid last hm1 hm2]
    exact hA1perm.map _
  · have hb2 : ord2.length = ord0.length + spanLen near := spansB_len _ _ _ N8
    simp only [mkInterior, spansB, Bool.and_eq_true]
    constructor
    · rw [← hb2]
      exact N8
    · rw [← hb2]
      exact F8

theorem pec_fst (dim : EAxis) (first last : ℕ) (gis : List SBVHGeometryInfo) :
    (partitionEqualCounts dim first last gis).1 = (first + last) / 2 := rfl

theorem pec_snd_length (dim : EAxis) (first last : ℕ) (gis : List SBVHGeometryInfo)
    (h1 : first ≤ last) (h2 : last ≤ gis.length) :
    (partitionEqualCounts dim first last gis).2.length = gis.length := by
  unfold partitionEqualCounts
  exact listSetSub_length _ _ _ _ h1 h2
    (by rw [insSort_length, listSub_len _ _ _ h1 h2])

theorem pec_snd_take (dim : EAxis) (first last : ℕ) (gis : List SBVHGeometryInfo)
    (h1 : first ≤ last) (h2 : last ≤ gis.length) :
    (partitionEqualCounts dim first last gis).2.take first = gis.take first := by
  unfold partitionEqualCounts
  exact listSetSub_take _ _ _ _ h1 h2

theorem pec_snd_drop (dim : EAxis) (first last : ℕ) (gis : List SBVHGeometryInfo)
    (h1 : first ≤ last) (h2 : last ≤ gis.length) :
    (partitionEqualCounts dim first last gis).2.drop last = gis.drop last := by
  unfold partitionEqualCounts
  exact listSetSub_drop _ _ _ _ h1 h2
    (by rw [insSort_length, listSub_len _ _ _ h1 h2])

theorem pec_snd_subPerm (dim : EAxis) (first last : ℕ) (gis : List SBVHGeometryInfo)
    (h1 : first ≤ last) (h2 : last ≤ gis.length) :
    (listSub (partitionEqualCounts dim first last gis).2 first last).Perm
      (listSub gis first last) := by
  unfold partitionEqualCounts
  rw [listSub_listSetSub _ _ _ _ h1 h2
    (by rw [insSort_length, listSub_len _ _ _ h1 h2])]
  exact insSort_perm _ _

theorem buildRec_ec_inv (geoms : List Geometry) (maxG : ℕ) :
    ∀ (fuel : ℕ) (st : BuildState) (first last : ℕ) (nd : SBVHNode) (st' : BuildState),
      buildRecursive geoms .EqualCounts maxG fuel st first last = some (nd, st') →
      first ≤ last → last ≤ st.geomInfos.length →
      st'.geomInfos.length = st.geomInfos.length ∧
      st'.geomInfos.take first = st.geomInfos.take first ∧
      st'.geomInfos.drop last = st.geomInfos.drop last ∧
      (listSub st'.geomInfos first last).Perm (listSub st.geomInfos first last) ∧
      st'.orderedGeoms.length = st.orderedGeoms.length + (last - first) ∧
      st'.orderedGeoms.take st.orderedGeoms.length = st.orderedGeoms ∧
      (st'.orderedGeoms.drop st.orderedGeoms.length).Perm
        ((listSub st.geomInfos first last).map
          (fun gi => geoms.getD gi.geometryId default)) ∧
      spansB nd st.orderedGeoms.length st'.orderedGeoms.length = true := by
  intro fuel
  induction fuel with
  | zero =>
    intro st first last nd st' h
    exact absurd h (by simp [buildRecursive])
  | succ n ih =>
    intro st first last nd st' h hfl hlen
    simp only [buildRecursive] at h
    rw [if_neg (by omega : ¬ last < first)] at h
    by_cases h1 : last - first = 1
    · rw [if_pos h1] at h
      exact ec_leaf_case _ _ _ _ _ _ _ (Option.some.inj h) hfl hlen
    · rw [if_neg h1] at h
      by_cases hdg : (rangeCentroidBox st.geomInfos first last).degenerateOn
          (rangeCentroidBox st.geomInfos first last).maxExtentAxis = true
      · rw [if_pos hdg] at h
        exact ec_leaf_case _ _ _ _ _ _ _ (Option.some.inj h) hfl hlen
      · rw [if_neg hdg] at h
        rw [show buildBranch geoms .EqualCounts maxG st first last
            (rangeAllBox st.geomInfos first last)
            (rangeCentroidBox st.geomInfos first last)
            (rangeCentroidBox st.geomInfos first last).maxExtentAxis =
          .inr (partitionEqualCounts
            (rangeCentroidBox st.geomInfos first last).maxExtentAxis
            first last st.geomInfos) from rfl] at h
        dsimp only at h
        rw [pec_fst] at h
        have hm1 : first ≤ (first + last) / 2 := by omega
        have hm2 : (first + last) / 2 ≤ last := by omega
        have hA1len := pec_snd_length
          (rangeCentroidBox st.geomInfos first last).maxExtentAxis
          first last st.geomInfos hfl hlen
        cases hnear : buildRecursive geoms .EqualCounts maxG n { st with geomInfos := (partitionEqualCounts (rangeCentroidBox st.geomInfos first last).maxExtentAxis first last st.geomInfos).2 } first ((first + last) / 2) with
        | none => rw [hnear] at h; exact absurd h (by simp)
        | some resN =>
          obtain ⟨nearChild, st2⟩ := resN
          rw [hnear] at h
          dsimp only at h
          cases hfar : buildRecursive geoms .EqualCounts maxG n st2
              ((first + last) / 2) last with
          | none => rw [hfar] at h; exact absurd h (by simp)
          | some resF =>
            obtain ⟨farChild, st3⟩ := resF
            rw [hfar] at h
            dsimp only at h
            simp only [Option.some.injEq, Prod.mk.injEq] at h
            obtain ⟨hnd, hst⟩ := h
            subst hnd
            subst hst
            have hN := ih _ first ((first + last) / 2) _ _ hnear hm1
              (show (first + last) / 2 ≤ (partitionEqualCounts (rangeCentroidBox st.geomInfos first last).maxExtentAxis first last st.geomInfos).2.length by rw [hA1len]; omega)
            obtain ⟨N1, N2, N3, N4, N5, N6, N7, N8⟩ := hN
            have N1' : st2.geomInfos.length = st.geomInfos.length := by
              rw [show st2.geomInfos.length = (partitionEqualCounts (rangeCentroidBox st.geomInfos first last).maxExtentAxis first last st.geomInfos).2.length from N1]
              exact hA1len
            have hF := ih st2 ((first + last) / 2) last _ _ hfar hm2
              (by rw [N1']; omega)
            obtain ⟨F1, F2, F3, F4, F5, F6, F7, F8⟩ := hF
            exact ec_interior_glue geoms st.orderedGeoms st.geomInfos
              (partitionEqualCounts (rangeCentroidBox st.geomInfos first last).maxExtentAxis first last st.geomInfos).2
              st2.geomInfos st3.geomInfos st2.orderedGeoms st3.orderedGeoms
              nearChild farChild st3.nodeCount
              (rangeCentroidBox st.geomInfos first last).maxExtentAxis
              first ((first + last) / 2) last hfl hlen hm1 hm2
              hA1len
              (pec_snd_take _ _ _ _ hfl hlen)
              (pec_snd_drop _ _ _ _ hfl hlen)
              (pec_snd_subPerm _ _ _ _ hfl hlen)
              N1 N2 N3 N4 N5 N6 N7 N8 F1 F2 F3 F4 F5 F6 F7 F8

/-- C10: under the EqualCounts strategy no synthetic entries are ever
created: the ordered primitive list the build installs is exactly a
permutation of the input list, and the leaf spans tile it consecutively, so
every input primitive lands in exactly one leaf span exactly once. -/
theorem c10_equalcounts_permutation (geoms : List Geometry) (maxG fuel : ℕ)
    (nd : SBVHNode) (st' : BuildState)
    (h : build geoms .EqualCounts maxG fuel = some (nd, st')) :
    st'.orderedGeoms.Perm geoms ∧
      spansB nd 0 st'.orderedGeoms.length = true := by
  have hlen0 : geoms.length ≤ (initState geoms).geomInfos.length := by
    show geoms.length ≤ (initGeomInfos geoms).length
    rw [initGeomInfos_length]
  have hinv := buildRec_ec_inv geoms maxG fuel (initState geoms) 0 geoms.length
    nd st' h (by omega) hlen0
  obtain ⟨_, _, _, _, _, _, H7, H8⟩ := hinv
  constructor
  · have H7' : (st'.orderedGeoms.drop 0).Perm
        ((listSub (initState geoms).geomInfos 0 geoms.length).map
          (fun gi => geoms.getD gi.geometryId default)) := H7
    rw [List.drop_zero] at H7'
    have hsub : listSub (initState geoms).geomInfos 0 geoms.length =
        initGeomInfos geoms := by
      show listSub (initGeomInfos geoms) 0 geoms.length = initGeomInfos geoms
      rw [← initGeomInfos_length geoms, listSub_full]
    rw [hsub, initGeomInfos_map] at H7'
    exact H7'
  · exact H8

theorem c10_equalcounts_permutation_witness :
    build w10geoms .EqualCounts 4 2 = some (w10node, w10state) ∧
      (w10state.orderedGeoms.Perm w10geoms ∧
        spansB w10node 0 w10state.orderedGeoms.length = true) :=
  ⟨by with_unfolding_all rfl,
   c10_equalcounts_permutation w10geoms 4 2 w10node w10state
     (by with_unfolding_all rfl)⟩

/-- C5: building with zero primitives never returns: `BuildRecursive(0, 0)`
passes the `last < first` guard, finds no degenerate centroid box on the
empty range (the float comparison of the inverted infinite empty box is
false), partitions at `mid = 0` under every strategy and recurses on the
identical range `(0, 0)` forever, so no fuel bound suffices and no structure
is ever produced. -/
theorem c5_empty_build_diverges (sm : SplitMethod) (maxG fuel : ℕ) :
    build ([] : List Geometry) sm maxG fuel = none := by
  unfold build
  simpa [initState, initGeomInfos] using
    buildRec_empty_range [] sm maxG fuel (initState [])

/-! ### Traversal equals brute force (C1) -/

theorem leF_refl (c : FCost) : leF c c := by
  cases c with
  | inf => trivial
  | val q => exact le_refl q

theorem leF_trans {a b c : FCost} (h1 : leF a b) (h2 : leF b c) : leF a c := by
  cases a <;> cases b <;> cases c <;>
    simp only [leF] at * <;> first | trivial | exact le_trans h1 h2

theorem qlt_le {q : ℚ} {c : FCost} (h : FCost.qlt q c = true) : leF (.val q) c := by
  cases c with
  | inf => trivial
  | val r => exact le_of_lt (by simpa [FCost.qlt] using h)

theorem qlt_false_le {q : ℚ} {c : FCost} (h : FCost.qlt q c = false) :
    leF c (.val q) := by
  cases c with
  | inf => simp [FCost.qlt] at h
  | val r => exact le_of_not_lt (by simpa [FCost.qlt] using h)

theorem accUpd_cases (r : Ray) (acc : FCost × Isect) (g : Geometry) :
    accUpd r acc g = acc ∨
      (accUpd r acc g = (.val (g.isect r).t, g.isect r) ∧ 0 < (g.isect r).t) := by
  dsimp only [accUpd]
  split_ifs with h
  · exact Or.inr ⟨rfl, h.1⟩
  · exact Or.inl rfl

theorem accUpd_leF (r : Ray) (acc : FCost × Isect) (g : Geometry) :
    leF (accUpd r acc g).1 acc.1 := by
  dsimp only [accUpd]
  split_ifs with h
  · exact qlt_le h.2
  · exact leF_refl _

theorem foldl_accUpd_cases (r : Ray) :
    ∀ (l : List Geometry) (acc : FCost × Isect),
      l.foldl (accUpd r) acc = acc ∨
        ∃ g ∈ l, l.foldl (accUpd r) acc = (.val (g.isect r).t, g.isect r) ∧
          0 < (g.isect r).t := by
  intro l
  induction l with
  | nil => intro acc; exact Or.inl rfl
  | cons a t ih =>
    intro acc
    rw [List.foldl_cons]
    rcases accUpd_cases r acc a with h | ⟨h, hpos⟩
    · rw [h]
      rcases ih acc with h2 | ⟨g, hg, h2⟩
      · exact Or.inl h2
      · exact Or.inr ⟨g, List.mem_cons_of_mem _ hg, h2⟩
    · rw [h]
      rcases ih ((.val (a.isect r).t, a.isect r) : FCost × Isect) with h2 | ⟨g, hg, h2⟩
      · exact Or.inr ⟨a, List.mem_cons_self _ _, h2, hpos⟩
      · exact Or.inr ⟨g, List.mem_cons_of_mem _ hg, h2⟩

theorem foldl_accUpd_leF (r : Ray) :
    ∀ (l : List Geometry) (acc : FCost × Isect),
      leF (l.foldl (accUpd r) acc).1 acc.1 := by
  intro l
  induction l with
  | nil => intro acc; exact leF_refl _
  | cons a t ih =>
    intro acc
    rw [List.foldl_cons]
    exact leF_trans (ih _) (accUpd_leF r acc a)

theorem foldl_accUpd_min (r : Ray) (l : List Geometry) (acc : FCost × Isect)
    (g : Geometry) (hg : g ∈ l) (hpos : 0 < (g.isect r).t) :
    leF (l.foldl (accUpd r) acc).1 (.val (g.isect r).t) := by
  obtain ⟨s, u, rfl⟩ := List.append_of_mem hg
  rw [List.foldl_append, List.foldl_cons]
  refine leF_trans (foldl_accUpd_leF r u _) ?_
  dsimp only [accUpd]
  split_ifs with h
  · show (g.isect r).t ≤ (g.isect r).t
    exact le_refl _
  · cases hq : FCost.qlt (g.isect r).t (s.foldl (accUpd r) acc).1 with
    | false => exact qlt_false_le hq
    | true => exact absurd ⟨hpos, hq⟩ h

theorem foldl_accUpd_miss (r : Ray) :
    ∀ (l : List Geometry) (acc : FCost × Isect),
      (∀ g ∈ l, (g.isect r).t ≤ 0) → l.foldl (accUpd r) acc = acc := by
  intro l
  induction l with
  | nil => intro acc _; rfl
  | cons a t ih =>
    intro acc hmiss
    rw [List.foldl_cons]
    have ha : accUpd r acc a = acc := by
      dsimp only [accUpd]
      rw [if_neg]
      rintro ⟨h1, _⟩
      exact absurd h1 (not_lt.mpr (hmiss a (List.mem_cons_self _ _)))
    rw [ha]
    exact ih acc fun g hg => hmiss g (List.mem_cons_of_mem _ hg)

theorem leafFold_eq_foldRange (geoms : List Geometry) (r : Ray) (off cnt : ℕ)
    (acc : FCost × Isect) :
    leafFold geoms r off cnt acc = foldRange geoms r off (off + cnt) acc := by
  unfold leafFold foldRange
  rw [Nat.add_sub_cancel_left, List.range'_eq_map_range, List.foldl_map]

theorem fold_range_shift (r : Ray) (a : Geometry) (l : List Geometry) :
    ∀ (n s : ℕ) (acc : FCost × Isect),
      (List.range' (s + 1) n).foldl
          (fun x j => accUpd r x ((a :: l).getD j default)) acc =
        (List.range' s n).foldl (fun x j => accUpd r x (l.getD j default)) acc := by
  intro n
  induction n with
  | zero => intro s acc; rfl
  | succ n ih =>
    intro s acc
    rw [List.range'_succ, List.range'_succ, List.foldl_cons, List.foldl_cons,
      List.getD_cons_succ]
    exact ih (s + 1) _

theorem bruteForce_eq_foldRange (geoms : List Geometry) (r : Ray) :
    bruteForce geoms r = foldRange geoms r 0 geoms.length (.inf, {}) := by
  suffices h : ∀ (l : List Geometry) (acc : FCost × Isect),
      l.foldl (accUpd r) acc =
        (List.range' 0 l.length).foldl
          (fun x j => accUpd r x (l.getD j default)) acc by
    unfold bruteForce foldRange
    rw [Nat.sub_zero]
    exact h geoms _
  intro l
  induction l with
  | nil => intro acc; rfl
  | cons a t ih =>
    intro acc
    rw [List.length_cons, List.range'_succ, List.foldl_cons, List.foldl_cons,
      List.getD_cons_zero]
    exact (ih _).trans (fold_range_shift r a t t.length 0 _).symm

theorem foldRange_append (geoms : List Geometry) (r : Ray) (a m b : ℕ)
    (h1 : a ≤ m) (h2 : m ≤ b) (acc : FCost × Isect) :
    foldRange geoms r m b (foldRange geoms r a m acc) =
      foldRange geoms r a b acc := by
  unfold foldRange
  rw [← List.foldl_append]
  congr 1
  have hr := List.range'_append_1 a (m - a) (b - m)
  rw [show a + (m - a) = m from by omega] at hr
  rw [hr, show b - m + (m - a) = b - a from by omega]

theorem foldRange_miss (geoms : List Geometry) (r : Ray) :
    ∀ (n a : ℕ) (acc : FCost × Isect),
      (∀ j, a ≤ j → j < a + n → ((geoms.getD j default).isect r).t ≤ 0) →
      (List.range' a n).foldl (fun x j => accUpd r x (geoms.getD j default)) acc =
        acc := by
  intro n
  induction n with
  | zero => intro a acc _; rfl
  | succ n ih =>
    intro a acc hmiss
    rw [List.range'_succ, List.foldl_cons]
    have ha : accUpd r acc (geoms.getD a default) = acc := by
      dsimp only [accUpd]
      rw [if_neg]
      rintro ⟨h1, _⟩
      exact absurd h1 (not_lt.mpr (hmiss a le_rfl (by omega)))
    rw [ha]
    exact ih (a + 1) acc fun j hj1 hj2 => hmiss j (by omega) (by omega)

theorem sound_le (bh : BBox → Ray → Bool) (geoms : List Geometry) (r : Ray) :
    ∀ (nd : SBVHNode) (a b : ℕ), Sound bh geoms r nd a b → a ≤ b := by
  intro nd
  induction nd with
  | null =>
    intro a b h
    simp only [Sound] at h
    omega
  | leaf i off cnt bb =>
    intro a b h
    simp only [Sound] at h
    omega
  | interior near far i ax bb ihn ihf =>
    intro a b h
    simp only [Sound] at h
    obtain ⟨m, hn, hf, _⟩ := h
    have h1 := ihn a m hn
    have h2 := ihf m b hf
    omega

theorem getIntersectionRec_eq (bh : BBox → Ray → Bool) (geoms : List Geometry)
    (r : Ray) :
    ∀ (nd : SBVHNode) (a b : ℕ) (acc : FCost × Isect),
      Sound bh geoms r nd a b →
      getIntersectionRec bh geoms r nd acc = foldRange geoms r a b acc := by
  intro nd
  induction nd with
  | null =>
    intro a b acc hs
    simp only [Sound] at hs
    subst hs
    unfold foldRange
    rw [Nat.sub_self]
    rfl
  | leaf i off cnt bb =>
    intro a b acc hs
    simp only [Sound] at hs
    obtain ⟨h1, h2⟩ := hs
    subst h1
    subst h2
    exact leafFold_eq_foldRange geoms r off cnt acc
  | interior near far i ax bb ihn ihf =>
    intro a b acc hs
    simp only [Sound] at hs
    obtain ⟨m, hn, hf, hcull⟩ := hs
    have ham : a ≤ m := sound_le bh geoms r near a m hn
    have hmb : m ≤ b := sound_le bh geoms r far m b hf
    simp only [getIntersectionRec]
    split_ifs with hbox
    · rw [ihn a m acc hn, ihf m b _ hf]
      exact foldRange_append geoms r a m b ham hmb acc
    · have hmiss := hcull (by simpa using hbox)
      unfold foldRange
      refine (foldRange_miss geoms r (b - a) a acc fun j hj1 hj2 => ?_).symm
      exact hmiss j hj1 (by omega)

/-- C1: for any traversal-sound tree over the ordered primitive list (leaf
spans tile `[0, N)` and culled boxes hide only non-positive hits),
`GetIntersection` returns exactly the brute-force result over all
primitives; the brute-force result is minimal among the positive-distance
hits, is the default no-hit record when every primitive has distance at
most 0, and is never an intersection with distance at most 0. -/
theorem c1_nearest_matches_bruteforce (bh : BBox → Ray → Bool)
    (geoms : List Geometry) (r : Ray) (root : SBVHNode)
    (hs : Sound bh geoms r root 0 geoms.length) :
    getIntersection bh geoms r root = (bruteForce geoms r).2 ∧
      (∀ g ∈ geoms, 0 < (g.isect r).t →
        0 < (bruteForce geoms r).2.t ∧
          (bruteForce geoms r).2.t ≤ (g.isect r).t) ∧
      ((∀ g ∈ geoms, (g.isect r).t ≤ 0) →
        (bruteForce geoms r).2 = ({} : Isect)) ∧
      ((∃ g ∈ geoms, (bruteForce geoms r).2 = g.isect r ∧ 0 < (g.isect r).t) ∨
        (bruteForce geoms r).2 = ({} : Isect)) := by
  refine ⟨?_, ?_, ?_, ?_⟩
  · cases root with
    | null =>
      simp only [Sound] at hs
      have hg : geoms = [] := List.length_eq_zero.mp hs.symm
      subst hg
      rfl
    | leaf i off cnt bb =>
      simp only [Sound] at hs
      obtain ⟨h1, h2⟩ := hs
      subst h1
      rw [bruteForce_eq_foldRange]
      simp only [getIntersection]
      rw [leafFold_eq_foldRange, h2]
    | interior near far i ax bb =>
      simp only [Sound] at hs
      obtain ⟨m, hn, hf, _⟩ := hs
      have hmb : m ≤ geoms.length := sound_le bh geoms r far m geoms.length hf
      simp only [getIntersection]
      rw [getIntersectionRec_eq bh geoms r near 0 m _ hn,
        getIntersectionRec_eq bh geoms r far m geoms.length _ hf,
        foldRange_append geoms r 0 m geoms.length (Nat.zero_le m) hmb,
        bruteForce_eq_foldRange]
  · intro g hg hpos
    have hmin := foldl_accUpd_min r geoms (.inf, {}) g hg hpos
    rcases foldl_accUpd_cases r geoms (.inf, {}) with hcase | ⟨g', _, heq, hpos'⟩
    · rw [hcase] at hmin
      simp only [leF] at hmin
    · unfold bruteForce
      rw [heq] at hmin ⊢
      exact ⟨hpos', hmin⟩
  · intro hmiss
    unfold bruteForce
    rw [foldl_accUpd_miss r geoms _ hmiss]
  · rcases foldl_accUpd_cases r geoms (.inf, {}) with hcase | ⟨g, hg, heq, hpos⟩
    · right
      unfold bruteForce
      rw [hcase]
    · left
      exact ⟨g, hg, by unfold bruteForce; rw [heq], hpos⟩

theorem c1_nearest_matches_bruteforce_witness :
    Sound c1bh c1geoms c1ray c1root 0 c1geoms.length ∧
      getIntersection c1bh c1geoms c1ray c1root = (bruteForce c1geoms c1ray).2 := by
  have hs : Sound c1bh c1geoms c1ray c1root 0 c1geoms.length :=
    ⟨1, ⟨rfl, rfl⟩, ⟨rfl, rfl⟩, fun h => by simp [c1bh] at h⟩
  exact ⟨hs, (c1_nearest_matches_bruteforce c1bh c1geoms c1ray c1root hs).1⟩

end SBVH
